import Mathlib

/-!
# Verification of the portfolio-rebalancing core

Shallow embedding of the repository's Python sources:

* `python_source/domain.py` — `Segment`, `Asset` (with `add_segment`),
  `Portfolio` (with its `__post_init__` aggregation),
* `python_source/instance_manager.py` — `InstanceManager.from_csv` and
  `InstanceManager.new_portfolio`,
* `advent_of_or.py` — the bi-objective solving strategy of `main`
  (lexicographic / weighted / risk-ignored) and the `variance` double sum,
* `portfolio_rebalancing_nextmvified/python_source/portfolio_optimizer.py`
  and `entry_point.py` — the post-solve status handling and the
  `solve_optimization` pipeline.

Numbers are modelled as rationals (the Python code computes with floats;
all the properties below are about the exact arithmetic the expressions
denote).  Python dicts are modelled as insertion-ordered association
lists; fallible lookups (`dict[key]`, which raises `KeyError`) return
`Except`.
-/

namespace PortfolioRebalancing

/-- Python 3 `round` to an integer (banker's rounding: ties go to the
even neighbour), idealized over `ℚ`. -/
def pyRound (q : ℚ) : ℤ :=
  let f := ⌊q⌋
  let frac := q - f
  if frac < 1/2 then f
  else if 1/2 < frac then f + 1
  else if f % 2 = 0 then f else f + 1

/-- First-match lookup in an insertion-ordered association list
(the model of a Python `dict`). -/
def assocFind {κ α : Type} [DecidableEq κ] : List (κ × α) → κ → Option α
  | [], _ => none
  | x :: xs, k => if x.1 = k then some x.2 else assocFind xs k

/-- Python `key in dict`. -/
def assocContains {κ α : Type} [DecidableEq κ] (l : List (κ × α)) (k : κ) : Bool :=
  (assocFind l k).isSome

/-- In-place update of the value stored under a key (the model of
mutating the object a `dict` entry points at). -/
def assocModify {κ α : Type} [DecidableEq κ] (l : List (κ × α)) (k : κ) (f : α → α) :
    List (κ × α) :=
  l.map fun x => if x.1 = k then (x.1, f x.2) else x

/-- `Segment` from `domain.py`: the smallest rebalancing unit. -/
structure Segment where
  segment_id : String
  asset : String
  exposure : ℚ
  profitability : ℚ
  risk_weight : ℚ
  rel_sell_cost : ℚ
  rel_origination_cost : ℚ
deriving DecidableEq

/-- `Asset` from `domain.py`: a risk bucket owning segments plus
incrementally maintained aggregates.  The Python dataclass defaults are
`min_rel_exposure = 0.5`, `max_rel_exposure = 1.5`, `profit_stdev = 0.0`
and zero for every aggregate. -/
structure Asset where
  asset_id : String
  segments : List (String × Segment)
  total_exposure : ℚ
  total_profit : ℚ
  total_risk_weighted_assets : ℚ
  average_risk_weight : ℚ
  min_rel_exposure : ℚ
  max_rel_exposure : ℚ
  profit_stdev : ℚ
deriving DecidableEq

/-- A fresh `Asset(asset_id)` with all dataclass defaults. -/
def Asset.fresh (aid : String) : Asset :=
  { asset_id := aid, segments := [], total_exposure := 0, total_profit := 0,
    total_risk_weighted_assets := 0, average_risk_weight := 0,
    min_rel_exposure := 1/2, max_rel_exposure := 3/2, profit_stdev := 0 }

/-- `Asset.add_segment` from `domain.py`: store the segment under its id
(replacing any previous entry with the same id) and update the four
aggregates. -/
def Asset.add_segment (a : Asset) (s : Segment) : Asset :=
  let segments :=
    if assocContains a.segments s.segment_id then
      assocModify a.segments s.segment_id (fun _ => s)
    else a.segments ++ [(s.segment_id, s)]
  let total_exposure := a.total_exposure + s.exposure
  let total_profit := a.total_profit + s.profitability * s.exposure
  let total_risk_weighted_assets := a.total_risk_weighted_assets + s.exposure * s.risk_weight
  { a with
    segments := segments
    total_exposure := total_exposure
    total_profit := total_profit
    total_risk_weighted_assets := total_risk_weighted_assets
    average_risk_weight :=
      if 0 < total_exposure then total_risk_weighted_assets / total_exposure else 0 }

/-- The correlation matrix (a pandas `DataFrame` in the source), modelled
as an association list over ordered asset pairs. -/
def CorrMatrix : Type := List ((String × String) × ℚ)

instance : DecidableEq CorrMatrix := by
  unfold CorrMatrix
  infer_instance

/-- `Portfolio` from `domain.py`. -/
structure Portfolio where
  portfolio_id : String
  assets : List (String × Asset)
  correlation_matrix : CorrMatrix
  total_exposure : ℚ
  total_profit : ℚ
  total_risk_weighted_assets : ℚ
  average_risk_weight : ℚ
deriving DecidableEq

/-- One iteration of `Portfolio.__post_init__`: fold an asset's
aggregates into the portfolio-level ones. -/
def Portfolio.postInitStep (p : Portfolio) (a : Asset) : Portfolio :=
  let total_exposure := p.total_exposure + a.total_exposure
  let total_profit := p.total_profit + a.total_profit
  let total_risk_weighted_assets := p.total_risk_weighted_assets + a.total_risk_weighted_assets
  { p with
    total_exposure := total_exposure
    total_profit := total_profit
    total_risk_weighted_assets := total_risk_weighted_assets
    average_risk_weight :=
      if 0 < total_exposure then total_risk_weighted_assets / total_exposure else 0 }

/-- `Portfolio(portfolio_id, assets, correlation_matrix)` followed by
`__post_init__` (aggregates start from the dataclass defaults `0.0`). -/
def mkPortfolio (pid : String) (assets : List (String × Asset)) (corr : CorrMatrix) :
    Portfolio :=
  assets.foldl (fun p x => p.postInitStep x.2)
    { portfolio_id := pid, assets := assets, correlation_matrix := corr,
      total_exposure := 0, total_profit := 0, total_risk_weighted_assets := 0,
      average_risk_weight := 0 }

/-! ## Instance manager (`instance_manager.py`) -/

/-- One row of the segments table consumed by `from_csv`. -/
structure SegRow where
  segment_id : String
  asset : String
  exposure : ℚ
  average_profitability : ℚ
  risk_weight : ℚ
  rel_sell_cost : ℚ
  rel_origination_cost : ℚ
deriving DecidableEq

/-- One row of the assets table consumed by `from_csv`. -/
structure AssetRow where
  asset : String
  max_exposure_decrease : ℚ
  max_exposure_increase : ℚ
  stdev_profitability : ℚ
deriving DecidableEq

/-- The `Segment(...)` built from a segment row inside `from_csv`. -/
def segOfRow (r : SegRow) : Segment :=
  { segment_id := r.segment_id, asset := r.asset, exposure := r.exposure,
    profitability := r.average_profitability, risk_weight := r.risk_weight,
    rel_sell_cost := r.rel_sell_cost, rel_origination_cost := r.rel_origination_cost }

/-- The `Asset(asset_id, {segment_id: segment}, exposure,
exposure * profitability, exposure * risk_weight, risk_weight)` that
`from_csv` creates on the first segment of an asset (remaining dataclass
fields keep their defaults). -/
def csvSeedAsset (aid : String) (seg : Segment) : Asset :=
  { asset_id := aid, segments := [(seg.segment_id, seg)],
    total_exposure := seg.exposure,
    total_profit := seg.exposure * seg.profitability,
    total_risk_weighted_assets := seg.exposure * seg.risk_weight,
    average_risk_weight := seg.risk_weight,
    min_rel_exposure := 1/2, max_rel_exposure := 3/2, profit_stdev := 0 }

/-- The body of `from_csv`'s loop over segment rows. -/
def fromCsvSegStep (acc : List (String × Asset)) (r : SegRow) : List (String × Asset) :=
  let seg := segOfRow r
  if assocContains acc r.asset then
    assocModify acc r.asset (fun a => a.add_segment seg)
  else acc ++ [(r.asset, csvSeedAsset r.asset seg)]

/-- The body of `from_csv`'s loop over asset rows: overlay bounds and the
profit standard deviation on assets already present (rows for unknown
assets are silently ignored). -/
def fromCsvAssetStep (acc : List (String × Asset)) (r : AssetRow) : List (String × Asset) :=
  if assocContains acc r.asset then
    assocModify acc r.asset (fun a =>
      { a with
        min_rel_exposure := 1 - r.max_exposure_decrease
        max_rel_exposure := 1 + r.max_exposure_increase
        profit_stdev := r.stdev_profitability })
  else acc

/-- `InstanceManager.from_csv`.  Note: the function is total — the source
contains no `raise` statement and performs no validation of any kind. -/
def from_csv (instance_name : String) (df_segments : List SegRow)
    (df_assets : List AssetRow) (df_correlation_matrix : CorrMatrix) : Portfolio :=
  let assets := df_segments.foldl fromCsvSegStep []
  let assets := df_assets.foldl fromCsvAssetStep assets
  mkPortfolio (instance_name ++ "_input_portfolio") assets df_correlation_matrix

/-- `xpress` solution statuses (`xp.SolStatus`). -/
inductive SolStatus where
  | optimal
  | feasible
  | infeasible
  | unbounded
deriving DecidableEq

/-- The exceptions relevant to the pipeline: Python's built-in
`KeyError` (raised by `new_distribution[(asset_id, segment_id)]` when
the pair is absent), plus the `ValidationError` and `SolverStatusError`
the specification speaks of — the source defines and raises no such
exceptions; those two constructors exist only so that the specified
behaviour can be stated and compared with the actual one. -/
inductive PyError where
  | keyError : String × String → PyError
  | validationError : PyError
  | solverStatusError : SolStatus → PyError
deriving DecidableEq

/-- An allocation: the solver's `(asset, segment) → multiplier` mapping. -/
def Alloc : Type := List ((String × String) × ℚ)

/-- The new `Segment` built inside `new_portfolio`: a field-by-field copy
of the original whose `exposure` is then overwritten with
`round(new_distribution[(asset_id, segment_id)] * exposure)`; a missing
pair raises `KeyError`. -/
def newSegmentOf (nd : Alloc) (aid : String) (s : Segment) : Except PyError Segment :=
  match assocFind nd (aid, s.segment_id) with
  | some m => .ok { s with exposure := (pyRound (m * s.exposure) : ℚ) }
  | none => .error (.keyError (aid, s.segment_id))

/-- The `Asset(asset.asset_id, {new_segment.segment_id: new_segment},
..., asset.min_rel_exposure, asset.max_rel_exposure)` that
`new_portfolio` creates on the first segment of an asset
(`profit_stdev` is not passed and keeps its default `0.0`). -/
def npSeedAsset (orig : Asset) (ns : Segment) : Asset :=
  { asset_id := orig.asset_id, segments := [(ns.segment_id, ns)],
    total_exposure := ns.exposure,
    total_profit := ns.exposure * ns.profitability,
    total_risk_weighted_assets := ns.exposure * ns.risk_weight,
    average_risk_weight := ns.risk_weight,
    min_rel_exposure := orig.min_rel_exposure,
    max_rel_exposure := orig.max_rel_exposure, profit_stdev := 0 }

/-- The body of `new_portfolio`'s inner loop over one asset's segments. -/
def npSegStep (nd : Alloc) (orig : Asset) (acc : List (String × Asset)) (s : Segment) :
    Except PyError (List (String × Asset)) := do
  let ns ← newSegmentOf nd orig.asset_id s
  if assocContains acc orig.asset_id then
    pure (assocModify acc orig.asset_id (fun a => a.add_segment ns))
  else
    pure (acc ++ [(orig.asset_id, npSeedAsset orig ns)])

/-- `new_portfolio`'s outer-loop body: process every segment of one
asset. -/
def npAssetStep (nd : Alloc) (acc : List (String × Asset)) (x : String × Asset) :
    Except PyError (List (String × Asset)) :=
  x.2.segments.foldlM (fun acc2 y => npSegStep nd x.2 acc2 y.2) acc

/-- `InstanceManager.new_portfolio`.  The returned `Portfolio` is built
with `Portfolio(portfolio_id, new_assets)`, so its correlation matrix is
the dataclass default (empty). -/
def new_portfolio (instance_name : String) (p : Portfolio) (nd : Alloc) :
    Except PyError Portfolio := do
  let new_assets ← p.assets.foldlM (npAssetStep nd) []
  pure (mkPortfolio (instance_name ++ "_optimized_portfolio") new_assets [])

/-! ## Bi-objective solving strategy (`advent_of_or.py`, `main`)

The gamspy model is reduced to the state that the strategy code reads
and writes between solves: the scalar parameter `alpha`, whether
`risk_equation` has been appended to `model.equations`, the problem kind
(`QCP`/`NLP`), and the lower bound installed on
`profit_objective_variable`.  The external solver is an oracle mapping
the model state at a solve call to the level of
`profit_objective_variable` after that call. -/

inductive ProblemKind where
  | QCP
  | NLP
deriving DecidableEq

/-- The mutable model state touched by the strategy code. -/
structure ModelState where
  alpha : ℚ
  hasRiskEquation : Bool
  problem : ProblemKind
  profitObjectiveLo : Option ℚ
deriving DecidableEq

/-- The model right after `gp.Model(...)`: `alpha` is an unset parameter
(value `0`), `risk_equation` is not among the equations, the problem is
`QCP`, and no bound has been installed on `profit_objective_variable`. -/
def modelAtCreation : ModelState :=
  { alpha := 0, hasRiskEquation := false, problem := .QCP, profitObjectiveLo := none }

/-- The model's objective expression,
`alpha * profit_objective_variable - (1 - alpha) * profit_downside_var`,
as a function of the candidate net-profit and downside values (the model
maximizes it: `sense=gp.Sense.MAX`). -/
def objectiveOf (m : ModelState) (netProfit downside : ℚ) : ℚ :=
  m.alpha * netProfit - (1 - m.alpha) * downside

/-- The solve protocol of `main`: the list of model states at the
successive `model.solve(...)` calls, in order.  `solver` is the external
solver oracle (returning the level of `profit_objective_variable`). -/
def mainSolves (consider_risk : Bool) (profit_weight : ℚ) (solver : ModelState → ℚ) :
    List ModelState :=
  let model := modelAtCreation
  if consider_risk then
    if profit_weight < 0 then  -- lexicographic
      let model1 := { model with alpha := 1 }
      let netProfitLevel := solver model1
      let rel_tol : ℚ := 1/10
      let model2 := { model1 with profitObjectiveLo := some (netProfitLevel * (1 - rel_tol)) }
      let model2 := { model2 with alpha := 0, hasRiskEquation := true, problem := .NLP }
      [model1, model2]
    else  -- weighted
      let model1 := { model with hasRiskEquation := true, problem := .NLP, alpha := profit_weight }
      [model1]
  else
    let model1 := { model with alpha := 1 }
    [model1]

/-! ## Variance double sum (`advent_of_or.py`, `variance`) -/

/-- The `variance` expression:
`Sum((A, J), stdev[A] * stdev[J] * corr[A, J] * E[A] * E[J] / (T * T))`
over the asset set (here a list of asset identifiers), with `E` the
per-asset realized exposures (`portfolio_exposure_vars`) and `T` the
realized total exposure (`new_total_exposure`). -/
def varianceSum (ids : List String) (stdev : String → ℚ) (corr : String → String → ℚ)
    (E : String → ℚ) (T : ℚ) : ℚ :=
  (ids.map fun i =>
    (ids.map fun j =>
      stdev i * stdev j * corr i j * E i * E j / (T * T)).sum).sum

/-- The same double sum with the roles of the two asset indices swapped
in the summand (the "transposed" summand family of the claim). -/
def varianceSumSwapped (ids : List String) (stdev : String → ℚ) (corr : String → String → ℚ)
    (E : String → ℚ) (T : ℚ) : ℚ :=
  (ids.map fun i =>
    (ids.map fun j =>
      stdev j * stdev i * corr j i * E j * E i / (T * T)).sum).sum

/-- Symmetry of the correlation matrix on a set of asset identifiers. -/
def CorrSymmOn (ids : List String) (corr : String → String → ℚ) : Prop :=
  ∀ i ∈ ids, ∀ j ∈ ids, corr i j = corr j i

/-! ## Post-solve status handling
(`portfolio_rebalancing_nextmvified/python_source`) -/

/-- The solution-processing tail of `optimize_portfolio`: `investment`
is initialized to `{}` and populated from the model only when
`solstatus in (xp.SolStatus.OPTIMAL, xp.SolStatus.FEASIBLE)`; whatever
it holds is returned — a bad status is only printed, never raised. -/
def extractInvestment (solstatus : SolStatus) (solution : Alloc) : Alloc :=
  if solstatus = .optimal ∨ solstatus = .feasible then solution else []

/-- `solve_optimization` from `entry_point.py`: build the original
portfolio, run the optimizer (whose solver outcome is the pair
`(solstatus, solution)` here), and rebuild the rebalanced portfolio from
the returned investment.  The write of the result tables is out of
scope; the produced `Portfolio` is the value of interest. -/
def solve_optimization (df_segments : List SegRow) (df_assets : List AssetRow)
    (df_correlation_matrix : CorrMatrix) (solstatus : SolStatus) (solution : Alloc) :
    Except PyError Portfolio :=
  let original := from_csv "" df_segments df_assets df_correlation_matrix
  let investment := extractInvestment solstatus solution
  new_portfolio "" original investment

/-! ## Object-store embedding of `new_portfolio` (for the frame claim)

To state that `new_portfolio` never mutates the original `Portfolio`,
the Python object graph is made explicit: `Segment` and `Asset` objects
live in a store addressed by allocation order, a `Portfolio` holds the
addresses of its `Asset` objects, and an `Asset` the addresses of its
`Segment` objects.  Every Python-level field write becomes a store write
at an address; creating an object appends a fresh cell. -/

/-- An `Asset` object whose segment dict maps ids to store addresses. -/
structure AssetObj where
  asset_id : String
  segments : List (String × Nat)
  total_exposure : ℚ
  total_profit : ℚ
  total_risk_weighted_assets : ℚ
  average_risk_weight : ℚ
  min_rel_exposure : ℚ
  max_rel_exposure : ℚ
  profit_stdev : ℚ
deriving DecidableEq

/-- A `Portfolio` object whose asset dict maps ids to store addresses. -/
structure PortfolioObj where
  portfolio_id : String
  assets : List (String × Nat)
  correlation_matrix : CorrMatrix
  total_exposure : ℚ
  total_profit : ℚ
  total_risk_weighted_assets : ℚ
  average_risk_weight : ℚ
deriving DecidableEq

/-- The object store: one cell per allocated `Segment` / `Asset`. -/
structure Store where
  segCells : List Segment
  assetCells : List AssetObj
deriving DecidableEq

/-- Placeholder cell contents for out-of-range reads. -/
def segDefault : Segment :=
  { segment_id := "", asset := "", exposure := 0, profitability := 0,
    risk_weight := 0, rel_sell_cost := 0, rel_origination_cost := 0 }

/-- Placeholder cell contents for out-of-range reads. -/
def assetObjDefault : AssetObj :=
  { asset_id := "", segments := [], total_exposure := 0, total_profit := 0,
    total_risk_weighted_assets := 0, average_risk_weight := 0,
    min_rel_exposure := 1/2, max_rel_exposure := 3/2, profit_stdev := 0 }

def Store.readSeg (h : Store) (i : Nat) : Segment := h.segCells.getD i segDefault

def Store.readAsset (h : Store) (i : Nat) : AssetObj := h.assetCells.getD i assetObjDefault

/-- Allocate a fresh `Segment` cell; returns its address. -/
def Store.allocSeg (h : Store) (s : Segment) : Store × Nat :=
  ({ h with segCells := h.segCells ++ [s] }, h.segCells.length)

/-- Overwrite the `Segment` cell at an address. -/
def Store.writeSeg (h : Store) (i : Nat) (s : Segment) : Store :=
  { h with segCells := h.segCells.set i s }

/-- Allocate a fresh `Asset` cell; returns its address. -/
def Store.allocAsset (h : Store) (a : AssetObj) : Store × Nat :=
  ({ h with assetCells := h.assetCells ++ [a] }, h.assetCells.length)

/-- Overwrite the `Asset` cell at an address. -/
def Store.writeAsset (h : Store) (i : Nat) (a : AssetObj) : Store :=
  { h with assetCells := h.assetCells.set i a }

/-- `Asset.add_segment` on an `Asset` object, the segment being stored
at address `naddr`. -/
def AssetObj.add_segment (a : AssetObj) (naddr : Nat) (s : Segment) : AssetObj :=
  let segments :=
    if assocContains a.segments s.segment_id then
      assocModify a.segments s.segment_id (fun _ => naddr)
    else a.segments ++ [(s.segment_id, naddr)]
  let total_exposure := a.total_exposure + s.exposure
  let total_profit := a.total_profit + s.profitability * s.exposure
  let total_risk_weighted_assets := a.total_risk_weighted_assets + s.exposure * s.risk_weight
  { a with
    segments := segments
    total_exposure := total_exposure
    total_profit := total_profit
    total_risk_weighted_assets := total_risk_weighted_assets
    average_risk_weight :=
      if 0 < total_exposure then total_risk_weighted_assets / total_exposure else 0 }

/-- The seed `Asset` object `new_portfolio` allocates on an asset's
first segment (stored at `naddr`). -/
def npSeedAssetObj (orig : AssetObj) (naddr : Nat) (ns : Segment) : AssetObj :=
  { asset_id := orig.asset_id, segments := [(ns.segment_id, naddr)],
    total_exposure := ns.exposure,
    total_profit := ns.exposure * ns.profitability,
    total_risk_weighted_assets := ns.exposure * ns.risk_weight,
    average_risk_weight := ns.risk_weight,
    min_rel_exposure := orig.min_rel_exposure,
    max_rel_exposure := orig.max_rel_exposure, profit_stdev := 0 }

/-- The `Segment(segment.segment_id, segment.asset, segment.exposure,
segment.profitability, segment.risk_weight, segment.rel_sell_cost,
segment.rel_origination_cost)` copy `new_portfolio` allocates. -/
def segmentCopy (s : Segment) : Segment :=
  { segment_id := s.segment_id, asset := s.asset, exposure := s.exposure,
    profitability := s.profitability, risk_weight := s.risk_weight,
    rel_sell_cost := s.rel_sell_cost, rel_origination_cost := s.rel_origination_cost }

/-- Inner-loop body of the store embedding of `new_portfolio`.  The
accumulator carries the store and, unless an exception is in flight, the
`new_assets` dict (ids to addresses).  On a raised `KeyError` the store
is left exactly as the partial execution left it. -/
def soSegStep (nd : Alloc) (origAddr : Nat)
    (acc : Store × Except PyError (List (String × Nat))) (saddr : Nat) :
    Store × Except PyError (List (String × Nat)) :=
  match acc with
  | (h, .error e) => (h, .error e)
  | (h, .ok newAssets) =>
    let orig := h.readAsset origAddr
    let s := h.readSeg saddr
    -- new_segment = Segment(segment.segment_id, ..., segment.rel_origination_cost)
    let alloc1 := h.allocSeg (segmentCopy s)
    let h1 := alloc1.1
    let naddr := alloc1.2
    -- new_segment.exposure = round(new_distribution[(aid, sid)] * new_segment.exposure)
    match assocFind nd (orig.asset_id, s.segment_id) with
    | none => (h1, .error (.keyError (orig.asset_id, s.segment_id)))
    | some m =>
      let ns := { s with exposure := (pyRound (m * s.exposure) : ℚ) }
      let h2 := h1.writeSeg naddr ns
      match assocFind newAssets orig.asset_id with
      | some aaddr =>
        -- new_assets[asset_id].add_segment(new_segment): mutate that cell
        (h2.writeAsset aaddr ((h2.readAsset aaddr).add_segment naddr ns), .ok newAssets)
      | none =>
        -- new_assets[asset_id] = Asset(...): allocate a fresh cell
        let alloc2 := h2.allocAsset (npSeedAssetObj orig naddr ns)
        (alloc2.1, .ok (newAssets ++ [(orig.asset_id, alloc2.2)]))

/-- Outer-loop body of the store embedding of `new_portfolio`. -/
def soAssetStep (nd : Alloc) (acc : Store × Except PyError (List (String × Nat)))
    (entry : String × Nat) : Store × Except PyError (List (String × Nat)) :=
  match acc with
  | (h, .error e) => (h, .error e)
  | (h, .ok newAssets) =>
    (h.readAsset entry.2).segments.foldl
      (fun acc2 y => soSegStep nd entry.2 acc2 y.2) (h, .ok newAssets)

/-- `Portfolio.__post_init__` over asset addresses, reading each asset's
aggregates from the store. -/
def mkPortfolioObj (h : Store) (pid : String) (assets : List (String × Nat)) :
    PortfolioObj :=
  assets.foldl
    (fun p x =>
      let a := h.readAsset x.2
      let total_exposure := p.total_exposure + a.total_exposure
      let total_profit := p.total_profit + a.total_profit
      let total_risk_weighted_assets :=
        p.total_risk_weighted_assets + a.total_risk_weighted_assets
      { p with
        total_exposure := total_exposure
        total_profit := total_profit
        total_risk_weighted_assets := total_risk_weighted_assets
        average_risk_weight :=
          if 0 < total_exposure then total_risk_weighted_assets / total_exposure
          else 0 })
    { portfolio_id := pid, assets := assets, correlation_matrix := [],
      total_exposure := 0, total_profit := 0, total_risk_weighted_assets := 0,
      average_risk_weight := 0 }

/-- Store embedding of `InstanceManager.new_portfolio`: returns the
store after execution (also when a `KeyError` escapes) together with the
result. -/
def newPortfolioStore (instance_name : String) (nd : Alloc) (h : Store)
    (p : PortfolioObj) : Store × Except PyError PortfolioObj :=
  let run := p.assets.foldl (soAssetStep nd) (h, .ok [])
  match run with
  | (h1, .error e) => (h1, .error e)
  | (h1, .ok newAssets) =>
    (h1, .ok (mkPortfolioObj h1 (instance_name ++ "_optimized_portfolio") newAssets))

/-! ## Aggregation lemmas for `Asset.add_segment` -/

/-- Sum of the exposures of a segment dict. -/
def segExpSum (l : List (String × Segment)) : ℚ :=
  (l.map fun x => x.2.exposure).sum

/-- Sum of exposure × profitability of a segment dict. -/
def segProfitSum (l : List (String × Segment)) : ℚ :=
  (l.map fun x => x.2.profitability * x.2.exposure).sum

/-- Sum of exposure × risk weight of a segment dict. -/
def segRwaSum (l : List (String × Segment)) : ℚ :=
  (l.map fun x => x.2.exposure * x.2.risk_weight).sum

/-! ## Aggregate consistency -/

/-- The aggregate equations of the specification for one `Asset`:
total exposure, total profit and total risk-weighted value are the sums
over the segment set, and the average risk weight is the quotient of
totals (`0` when total exposure is `0`). -/
def AssetAggConsistent (a : Asset) : Prop :=
  a.total_exposure = segExpSum a.segments
  ∧ a.total_profit = segProfitSum a.segments
  ∧ a.total_risk_weighted_assets = segRwaSum a.segments
  ∧ (0 < a.total_exposure →
      a.average_risk_weight = a.total_risk_weighted_assets / a.total_exposure)
  ∧ (a.total_exposure = 0 → a.average_risk_weight = 0)

/-! ## Structure of the `from_csv` asset-building fold -/

/-- The asset `from_csv` builds for `aid` from its first segment and the
remaining segments, in row order. -/
def buildFromSegs (aid : String) (first : Segment) (rest : List Segment) : Asset :=
  rest.foldl Asset.add_segment (csvSeedAsset aid first)

/-- The segment rows of one asset, in table order. -/
def rowsFor (aid : String) (rows : List SegRow) : List SegRow :=
  rows.filter fun r => r.asset = aid

/-- Invariant of `from_csv`'s fold over segment rows: every accumulated
asset is the seeded `add_segment` fold over exactly its rows (in order),
every processed row's asset is present, and the keys are distinct. -/
def CsvInv (rows : List SegRow) (acc : List (String × Asset)) : Prop :=
  (∀ x ∈ acc, ∃ first rest, (rowsFor x.1 rows).map segOfRow = first :: rest
      ∧ x.2 = buildFromSegs x.1 first rest)
  ∧ (∀ r ∈ rows, assocContains acc r.asset = true)
  ∧ (acc.map Prod.fst).Nodup

/-! ## The asset-row overlay -/

/-- Fields of an `Asset` untouched by the bound/stdev overlay of
`from_csv`'s second loop. -/
def SameCore (a b : Asset) : Prop :=
  a.asset_id = b.asset_id ∧ a.segments = b.segments
  ∧ a.total_exposure = b.total_exposure ∧ a.total_profit = b.total_profit
  ∧ a.total_risk_weighted_assets = b.total_risk_weighted_assets
  ∧ a.average_risk_weight = b.average_risk_weight

/-! ## Structure of the `new_portfolio` fold -/

/-- The new segment `new_portfolio` derives from an original one, as a
total function (the allocation lookup defaulted; under the presence
hypothesis the default is never used). -/
def roundedSegment (nd : Alloc) (aid : String) (s : Segment) : Segment :=
  { s with
    exposure := (pyRound (((assocFind nd (aid, s.segment_id)).getD 0) * s.exposure) : ℚ) }

/-- The asset `new_portfolio` builds from an original asset whose
segment dict holds `first` and then `rest`. -/
def buildNpAsset (nd : Alloc) (orig : Asset) (first : Segment)
    (rest : List (String × Segment)) : Asset :=
  (rest.map fun y => roundedSegment nd orig.asset_id y.2).foldl Asset.add_segment
    (npSeedAsset orig (roundedSegment nd orig.asset_id first))

/-- The `new_assets` entry contributed by one original asset (none when
it owns no segments). -/
def npBuiltEntry (nd : Alloc) (orig : Asset) : List (String × Asset) :=
  match orig.segments with
  | [] => []
  | first :: rest => [(orig.asset_id, buildNpAsset nd orig first.2 rest)]

/-- The whole `new_assets` dict. -/
def npBuiltList (nd : Alloc) : List (String × Asset) → List (String × Asset)
  | [] => []
  | x :: xs => npBuiltEntry nd x.2 ++ npBuiltList nd xs

/-! ## Frame reasoning over the object store -/

/-- The store grew only by allocation: every pre-existing cell keeps its
contents and its address. -/
def Store.Grows (h h' : Store) : Prop :=
  (∃ t, h'.segCells = h.segCells ++ t) ∧ (∃ t, h'.assetCells = h.assetCells ++ t)

/-- Invariant carried through the store embedding's folds: the store
only grew from the initial one, and every asset address the run has
put into `new_assets` is a freshly allocated cell. -/
def SoInv (h0 : Store) (acc : Store × Except PyError (List (String × Nat))) : Prop :=
  h0.Grows acc.1
  ∧ ∀ l, acc.2 = .ok l → ∀ e ∈ l, h0.assetCells.length ≤ e.2

/-- A one-segment example used in the counterexamples and witnesses. -/
def c6seg : Segment :=
  { segment_id := "S1", asset := "A1", exposure := 1, profitability := 0,
    risk_weight := 0, rel_sell_cost := 0, rel_origination_cost := 0 }

/-- A segment row whose asset is absent from the asset table. -/
def c2row : SegRow :=
  { segment_id := "S1", asset := "A1", exposure := 100, average_profitability := 1/20,
    risk_weight := 3/10, rel_sell_cost := 0, rel_origination_cost := 0 }

/-- An `Asset` object for the C5 witness. -/
def c5assetObj : AssetObj :=
  { asset_id := "A1", segments := [("S1", 0)], total_exposure := 1, total_profit := 0,
    total_risk_weighted_assets := 0, average_risk_weight := 0, min_rel_exposure := 1/2,
    max_rel_exposure := 3/2, profit_stdev := 0 }

/-- A store holding one original segment and one original asset. -/
def c5store : Store := { segCells := [c6seg], assetCells := [c5assetObj] }

/-- The original portfolio object of the C5 witness. -/
def c5pobj : PortfolioObj :=
  { portfolio_id := "p", assets := [("A1", 0)], correlation_matrix := [],
    total_exposure := 1, total_profit := 0, total_risk_weighted_assets := 0,
    average_risk_weight := 0 }

/-! ## Association-list lemmas -/

/-- The original asset of the C4 counterexample: one segment of
exposure 100 and risk weight 3/10. -/
def c4orig : Asset := csvSeedAsset "A1" (segOfRow c2row)

/-- The original portfolio of the C4 counterexample. -/
def c4p : Portfolio := mkPortfolio "p" [("A1", c4orig)] []

/-- An allocation assigning multiplier `0` to the only pair. -/
def c4nd : Alloc := [(("A1", "S1"), 0)]

/-- The asset `new_portfolio` rebuilds from `c4orig` under `c4nd`. -/
def c4new : Asset := npSeedAsset c4orig (roundedSegment c4nd "A1" (segOfRow c2row))

section AssocLemmas

variable {κ α : Type} [DecidableEq κ]

lemma assocFind_cons (x : κ × α) (xs : List (κ × α)) (k : κ) :
    assocFind (x :: xs) k = if x.1 = k then some x.2 else assocFind xs k := rfl

lemma assocModify_cons (x : κ × α) (xs : List (κ × α)) (k : κ) (f : α → α) :
    assocModify (x :: xs) k f
      = (if x.1 = k then (x.1, f x.2) else x) :: assocModify xs k f := rfl

lemma assocContains_cons (x : κ × α) (xs : List (κ × α)) (k : κ) :
    assocContains (x :: xs) k = if x.1 = k then true else assocContains xs k := by
  by_cases hx : x.1 = k <;> simp [assocContains, assocFind_cons, hx]

lemma assocContains_iff_mem_keys (l : List (κ × α)) (k : κ) :
    assocContains l k = true ↔ k ∈ l.map Prod.fst := by
  induction l with
  | nil => simp [assocContains, assocFind]
  | cons x xs ih =>
    rw [assocContains_cons]
    by_cases hx : x.1 = k
    · simp [hx]
    · rw [if_neg hx, ih]
      simp only [List.map_cons, List.mem_cons]
      constructor
      · exact fun h => Or.inr h
      · rintro (h | h)
        · exact absurd h.symm hx
        · exact h

lemma assocContains_eq_false_iff (l : List (κ × α)) (k : κ) :
    assocContains l k = false ↔ k ∉ l.map Prod.fst := by
  rw [← assocContains_iff_mem_keys]
  cases hc : assocContains l k <;> simp [hc]

lemma assocFind_append_left (l1 l2 : List (κ × α)) (k : κ)
    (h : assocContains l1 k = true) :
    assocFind (l1 ++ l2) k = assocFind l1 k := by
  induction l1 with
  | nil => simp [assocContains, assocFind] at h
  | cons x xs ih =>
    rw [assocContains_cons] at h
    by_cases hx : x.1 = k
    · simp [assocFind_cons, hx]
    · rw [if_neg hx] at h
      simp only [List.cons_append, assocFind_cons, if_neg hx]
      exact ih h

lemma assocFind_append_right (l1 l2 : List (κ × α)) (k : κ)
    (h : assocContains l1 k = false) :
    assocFind (l1 ++ l2) k = assocFind l2 k := by
  induction l1 with
  | nil => simp
  | cons x xs ih =>
    rw [assocContains_cons] at h
    by_cases hx : x.1 = k
    · rw [if_pos hx] at h; exact absurd h (by simp)
    · rw [if_neg hx] at h
      simp only [List.cons_append, assocFind_cons, if_neg hx]
      exact ih h

lemma assocContains_append (l1 l2 : List (κ × α)) (k : κ) :
    assocContains (l1 ++ l2) k = (assocContains l1 k || assocContains l2 k) := by
  cases hc : assocContains l1 k
  · simp only [assocContains, assocFind_append_right l1 l2 k hc, Bool.false_or]
  · simp only [assocContains, assocFind_append_left l1 l2 k hc, Bool.true_or]
    exact hc

lemma assocModify_keys (l : List (κ × α)) (k : κ) (f : α → α) :
    (assocModify l k f).map Prod.fst = l.map Prod.fst := by
  induction l with
  | nil => rfl
  | cons x xs ih =>
    rw [assocModify_cons]
    by_cases hx : x.1 = k <;> simp [hx, ih]

lemma assocContains_modify (l : List (κ × α)) (k k' : κ) (f : α → α) :
    assocContains (assocModify l k f) k' = assocContains l k' := by
  cases hc : assocContains l k'
  · rw [assocContains_eq_false_iff] at hc ⊢
    rw [assocModify_keys]
    exact hc
  · rw [assocContains_iff_mem_keys] at hc ⊢
    rw [assocModify_keys]
    exact hc

lemma assocModify_append_notin (l : List (κ × α)) (k : κ) (v : α) (f : α → α)
    (h : assocContains l k = false) :
    assocModify (l ++ [(k, v)]) k f = l ++ [(k, f v)] := by
  induction l with
  | nil => simp [assocModify]
  | cons x xs ih =>
    rw [assocContains_cons] at h
    by_cases hx : x.1 = k
    · rw [if_pos hx] at h; exact absurd h (by simp)
    · rw [if_neg hx] at h
      simp only [List.cons_append, assocModify_cons, if_neg hx, ih h]

lemma assocModify_notin (l : List (κ × α)) (k : κ) (f : α → α)
    (h : assocContains l k = false) :
    assocModify l k f = l := by
  induction l with
  | nil => rfl
  | cons x xs ih =>
    rw [assocContains_cons] at h
    by_cases hx : x.1 = k
    · rw [if_pos hx] at h; exact absurd h (by simp)
    · rw [if_neg hx] at h
      rw [assocModify_cons, if_neg hx, ih h]

lemma assocFind_modify_ne (l : List (κ × α)) (k k' : κ) (f : α → α) (h : k' ≠ k) :
    assocFind (assocModify l k f) k' = assocFind l k' := by
  induction l with
  | nil => rfl
  | cons x xs ih =>
    rw [assocModify_cons]
    by_cases hx : x.1 = k
    · have hx1 : ¬ x.1 = k' := fun he => h (hx ▸ he ▸ rfl)
      rw [if_pos hx, assocFind_cons, assocFind_cons]
      simp only [hx1, if_false]
      exact ih
    · rw [if_neg hx, assocFind_cons, assocFind_cons]
      by_cases hk : x.1 = k'
      · simp [hk]
      · simp only [hk, if_false]
        exact ih

lemma mem_assocModify (l : List (κ × α)) (k : κ) (f : α → α) (x : κ × α)
    (hx : x ∈ assocModify l k f) :
    ∃ y ∈ l, (y.1 ≠ k ∧ x = y) ∨ (y.1 = k ∧ x = (y.1, f y.2)) := by
  unfold assocModify at hx
  obtain ⟨y, hy, hxy⟩ := List.mem_map.mp hx
  refine ⟨y, hy, ?_⟩
  by_cases hyk : y.1 = k
  · right
    rw [if_pos hyk] at hxy
    exact ⟨hyk, hxy.symm⟩
  · left
    rw [if_neg hyk] at hxy
    exact ⟨hyk, hxy.symm⟩

end AssocLemmas

lemma foldl_add_segment_te (l : List Segment) :
    ∀ a : Asset, (l.foldl Asset.add_segment a).total_exposure
      = a.total_exposure + (l.map Segment.exposure).sum := by
  induction l with
  | nil => intro a; simp
  | cons x xs ih =>
    intro a
    rw [List.foldl_cons, ih]
    show (a.add_segment x).total_exposure + _ = _
    rw [Asset.add_segment]
    simp only [List.map_cons, List.sum_cons]
    ring

lemma foldl_add_segment_tp (l : List Segment) :
    ∀ a : Asset, (l.foldl Asset.add_segment a).total_profit
      = a.total_profit + (l.map fun s => s.profitability * s.exposure).sum := by
  induction l with
  | nil => intro a; simp
  | cons x xs ih =>
    intro a
    rw [List.foldl_cons, ih]
    show (a.add_segment x).total_profit + _ = _
    rw [Asset.add_segment]
    simp only [List.map_cons, List.sum_cons]
    ring

lemma foldl_add_segment_trwa (l : List Segment) :
    ∀ a : Asset, (l.foldl Asset.add_segment a).total_risk_weighted_assets
      = a.total_risk_weighted_assets + (l.map fun s => s.exposure * s.risk_weight).sum := by
  induction l with
  | nil => intro a; simp
  | cons x xs ih =>
    intro a
    rw [List.foldl_cons, ih]
    show (a.add_segment x).total_risk_weighted_assets + _ = _
    rw [Asset.add_segment]
    simp only [List.map_cons, List.sum_cons]
    ring

/-- `add_segment` touches no identity, bound or volatility field. -/
lemma foldl_add_segment_fields (l : List Segment) :
    ∀ a : Asset, (l.foldl Asset.add_segment a).asset_id = a.asset_id
      ∧ (l.foldl Asset.add_segment a).min_rel_exposure = a.min_rel_exposure
      ∧ (l.foldl Asset.add_segment a).max_rel_exposure = a.max_rel_exposure
      ∧ (l.foldl Asset.add_segment a).profit_stdev = a.profit_stdev := by
  induction l with
  | nil => intro a; exact ⟨rfl, rfl, rfl, rfl⟩
  | cons x xs ih =>
    intro a
    rw [List.foldl_cons]
    exact ih (a.add_segment x)

/-- After a non-empty run of `add_segment` calls, the average risk
weight is the one computed from the final totals. -/
lemma foldl_add_segment_avg (l : List Segment) (hne : l ≠ []) (a : Asset) :
    (l.foldl Asset.add_segment a).average_risk_weight
      = if 0 < (l.foldl Asset.add_segment a).total_exposure
        then (l.foldl Asset.add_segment a).total_risk_weighted_assets
              / (l.foldl Asset.add_segment a).total_exposure
        else 0 := by
  rcases (List.eq_nil_or_concat l) with h | ⟨L, b, rfl⟩
  · exact absurd h hne
  · rw [List.concat_eq_append, List.foldl_append]
    rfl

/-- The segment dict after a run of `add_segment` calls whose ids are
fresh and pairwise distinct. -/
lemma foldl_add_segment_segments (l : List Segment) :
    ∀ a : Asset, (∀ s ∈ l, assocContains a.segments s.segment_id = false) →
      (l.map Segment.segment_id).Nodup →
      (l.foldl Asset.add_segment a).segments
        = a.segments ++ l.map (fun s => (s.segment_id, s)) := by
  induction l with
  | nil => intro a _ _; simp
  | cons x xs ih =>
    intro a hfresh hnodup
    rw [List.foldl_cons]
    have hx : (a.add_segment x).segments = a.segments ++ [(x.segment_id, x)] := by
      rw [Asset.add_segment]
      simp only [hfresh x (List.mem_cons_self x xs), Bool.false_eq_true, if_false]
    have hxs : ∀ s ∈ xs, assocContains (a.add_segment x).segments s.segment_id = false := by
      intro s hs
      rw [hx, assocContains_append]
      have h1 : assocContains a.segments s.segment_id = false :=
        hfresh s (List.mem_cons_of_mem x hs)
      have h2 : assocContains [(x.segment_id, x)] s.segment_id = false := by
        rw [assocContains_eq_false_iff]
        simp only [List.map_cons, List.map_nil, List.mem_singleton]
        intro he
        rw [List.map_cons, List.nodup_cons] at hnodup
        exact hnodup.1 (he ▸ List.mem_map_of_mem Segment.segment_id hs)
      rw [h1, h2]
      rfl
    rw [ih (a.add_segment x) hxs ((List.map_cons Segment.segment_id x xs ▸ hnodup).of_cons),
      hx, List.map_cons, List.append_assoc]
    rfl

/-- Segment dict of a seeded fold: seed with one segment, then
`add_segment` the rest (ids pairwise distinct). -/
lemma seedFold_segments (s : Segment) (rest : List Segment) (a0 : Asset)
    (hseg : a0.segments = [(s.segment_id, s)])
    (hnodup : ((s :: rest).map Segment.segment_id).Nodup) :
    (rest.foldl Asset.add_segment a0).segments
      = (s :: rest).map (fun t => (t.segment_id, t)) := by
  rw [List.map_cons, List.nodup_cons] at hnodup
  rw [foldl_add_segment_segments rest a0 ?_ hnodup.2, hseg]
  · rfl
  · intro t ht
    rw [hseg, assocContains_eq_false_iff]
    simp only [List.map_cons, List.map_nil, List.mem_singleton]
    intro he
    exact hnodup.1 (he ▸ List.mem_map_of_mem Segment.segment_id ht)

/-- Aggregates of a seeded fold, in terms of the resulting segment
dict. -/
lemma seedFold_consistent (s : Segment) (rest : List Segment) (a0 : Asset)
    (hseg : a0.segments = [(s.segment_id, s)])
    (hte : a0.total_exposure = s.exposure)
    (htp : a0.total_profit = s.exposure * s.profitability)
    (htrwa : a0.total_risk_weighted_assets = s.exposure * s.risk_weight)
    (havg : a0.average_risk_weight = s.risk_weight)
    (hnodup : ((s :: rest).map Segment.segment_id).Nodup)
    (hpos : 0 < s.exposure) :
    AssetAggConsistent (rest.foldl Asset.add_segment a0) := by
  have hsegs := seedFold_segments s rest a0 hseg hnodup
  have hteq : (rest.foldl Asset.add_segment a0).total_exposure
      = s.exposure + (rest.map Segment.exposure).sum := by
    rw [foldl_add_segment_te, hte]
  refine ⟨?_, ?_, ?_, ?_, ?_⟩
  · rw [hteq, hsegs, segExpSum, List.map_map]
    simp [Function.comp_def]
  · rw [foldl_add_segment_tp, htp, hsegs, segProfitSum, List.map_map]
    simp only [Function.comp_def, List.map_cons, List.sum_cons]
    ring
  · rw [foldl_add_segment_trwa, htrwa, hsegs, segRwaSum, List.map_map]
    simp only [Function.comp_def, List.map_cons, List.sum_cons]
  · intro hp
    cases rest with
    | nil =>
      simp only [List.foldl_nil] at hp ⊢
      rw [havg, htrwa, hte] at *
      rw [hte] at hp
      field_simp
    | cons r rs =>
      rw [foldl_add_segment_avg (r :: rs) (by simp) a0, if_pos hp]
  · intro hz
    cases rest with
    | nil =>
      simp only [List.foldl_nil] at hz
      rw [hte] at hz
      exact absurd hz (ne_of_gt hpos)
    | cons r rs =>
      rw [foldl_add_segment_avg (r :: rs) (by simp) a0, if_neg (by rw [hz]; exact lt_irrefl 0)]

lemma rowsFor_append (aid : String) (l1 l2 : List SegRow) :
    rowsFor aid (l1 ++ l2) = rowsFor aid l1 ++ rowsFor aid l2 :=
  List.filter_append l1 l2

lemma rowsFor_singleton_pos (aid : String) (r : SegRow) (h : r.asset = aid) :
    rowsFor aid [r] = [r] := by
  simp [rowsFor, List.filter, h]

lemma rowsFor_singleton_neg (aid : String) (r : SegRow) (h : ¬ r.asset = aid) :
    rowsFor aid [r] = [] := by
  simp [rowsFor, List.filter, h]

lemma rowsFor_eq_nil (aid : String) (rows : List SegRow)
    (h : ∀ r ∈ rows, r.asset ≠ aid) : rowsFor aid rows = [] := by
  induction rows with
  | nil => rfl
  | cons r rs ih =>
    have : rowsFor aid (r :: rs) = rowsFor aid [r] ++ rowsFor aid rs :=
      rowsFor_append aid [r] rs
    rw [this, rowsFor_singleton_neg aid r (h r (List.mem_cons_self r rs)),
      ih (fun r' hr' => h r' (List.mem_cons_of_mem r hr'))]
    rfl

lemma csvInv_nil : CsvInv [] [] :=
  ⟨fun x hx => absurd hx (List.not_mem_nil x), fun r hr => absurd hr (List.not_mem_nil r),
    List.nodup_nil⟩

lemma csvInv_step (rows : List SegRow) (acc : List (String × Asset)) (r : SegRow)
    (h : CsvInv rows acc) : CsvInv (rows ++ [r]) (fromCsvSegStep acc r) := by
  obtain ⟨h1, h2, h3⟩ := h
  by_cases hc : assocContains acc r.asset = true
  · rw [fromCsvSegStep, if_pos hc]
    refine ⟨?_, ?_, ?_⟩
    · intro x hx
      obtain ⟨y, hy, hcase⟩ := mem_assocModify _ _ _ x hx
      obtain ⟨first, rest, hfr, hb⟩ := h1 y hy
      rcases hcase with ⟨hne, rfl⟩ | ⟨hkey, rfl⟩
      · refine ⟨first, rest, ?_, hb⟩
        rw [rowsFor_append, rowsFor_singleton_neg x.1 r (fun he => hne he.symm),
          List.append_nil]
        exact hfr
      · refine ⟨first, rest ++ [segOfRow r], ?_, ?_⟩
        · rw [rowsFor_append, rowsFor_singleton_pos y.1 r hkey.symm, List.map_append,
            hfr]
          rfl
        · rw [hb, buildFromSegs, buildFromSegs, List.foldl_append]
          rfl
    · intro r' hr'
      rw [assocContains_modify]
      rcases List.mem_append.mp hr' with h' | h'
      · exact h2 r' h'
      · rw [List.mem_singleton.mp h']
        exact hc
    · rw [assocModify_keys]
      exact h3
  · have hcf : assocContains acc r.asset = false := by
      revert hc; cases assocContains acc r.asset <;> simp
    rw [fromCsvSegStep, if_neg hc]
    refine ⟨?_, ?_, ?_⟩
    · intro x hx
      rcases List.mem_append.mp hx with hxa | hxn
      · obtain ⟨first, rest, hfr, hb⟩ := h1 x hxa
        refine ⟨first, rest, ?_, hb⟩
        have hxne : ¬ r.asset = x.1 := by
          intro he
          rw [assocContains_eq_false_iff] at hcf
          exact hcf (he ▸ List.mem_map_of_mem Prod.fst hxa)
        rw [rowsFor_append, rowsFor_singleton_neg x.1 r hxne, List.append_nil]
        exact hfr
      · rw [List.mem_singleton.mp hxn]
        refine ⟨segOfRow r, [], ?_, rfl⟩
        have hnil : rowsFor r.asset rows = [] := by
          apply rowsFor_eq_nil
          intro r' hr' he
          rw [assocContains_eq_false_iff] at hcf
          have := h2 r' hr'
          rw [he] at this
          rw [assocContains_iff_mem_keys] at this
          exact hcf this
        rw [rowsFor_append, hnil, List.nil_append,
          rowsFor_singleton_pos r.asset r rfl]
        rfl
    · intro r' hr'
      rw [assocContains_append]
      rcases List.mem_append.mp hr' with h' | h'
      · rw [h2 r' h']
        rfl
      · rw [List.mem_singleton.mp h']
        have : assocContains [(r.asset, csvSeedAsset r.asset (segOfRow r))] r.asset
            = true := by
          simp [assocContains, assocFind]
        rw [this, Bool.or_true]
    · rw [List.map_append]
      simp only [List.map_cons, List.map_nil]
      rw [List.nodup_append]
      refine ⟨h3, List.nodup_singleton _, ?_⟩
      intro k hk
      simp only [List.mem_singleton]
      intro he
      rw [assocContains_eq_false_iff] at hcf
      exact hcf (he ▸ hk)

lemma csvInv_fold (rows2 : List SegRow) :
    ∀ (rows1 : List SegRow) (acc : List (String × Asset)), CsvInv rows1 acc →
      CsvInv (rows1 ++ rows2) (rows2.foldl fromCsvSegStep acc) := by
  induction rows2 with
  | nil => intro rows1 acc h; rw [List.append_nil]; exact h
  | cons r rs ih =>
    intro rows1 acc h
    have step := csvInv_step rows1 acc r h
    have := ih (rows1 ++ [r]) (fromCsvSegStep acc r) step
    rw [List.append_assoc] at this
    exact this

lemma csvInv_full (rows : List SegRow) : CsvInv rows (rows.foldl fromCsvSegStep []) := by
  have := csvInv_fold rows [] [] csvInv_nil
  rw [List.nil_append] at this
  exact this

lemma sameCore_refl (a : Asset) : SameCore a a := ⟨rfl, rfl, rfl, rfl, rfl, rfl⟩

lemma sameCore_trans {a b c : Asset} (h1 : SameCore a b) (h2 : SameCore b c) :
    SameCore a c :=
  ⟨h1.1.trans h2.1, h1.2.1.trans h2.2.1, h1.2.2.1.trans h2.2.2.1,
    h1.2.2.2.1.trans h2.2.2.2.1, h1.2.2.2.2.1.trans h2.2.2.2.2.1,
    h1.2.2.2.2.2.trans h2.2.2.2.2.2⟩

lemma overlay_preserves_core (ars : List AssetRow) :
    ∀ (acc : List (String × Asset)) (x : String × Asset),
      x ∈ ars.foldl fromCsvAssetStep acc → ∃ y ∈ acc, x.1 = y.1 ∧ SameCore x.2 y.2 := by
  induction ars with
  | nil => intro acc x hx; exact ⟨x, hx, rfl, sameCore_refl x.2⟩
  | cons ar ars ih =>
    intro acc x hx
    rw [List.foldl_cons] at hx
    obtain ⟨y, hy, hxy, hcore⟩ := ih (fromCsvAssetStep acc ar) x hx
    rw [fromCsvAssetStep] at hy
    by_cases hc : assocContains acc ar.asset = true
    · rw [if_pos hc] at hy
      obtain ⟨z, hz, hcase⟩ := mem_assocModify _ _ _ y hy
      rcases hcase with ⟨_, rfl⟩ | ⟨_, rfl⟩
      · exact ⟨y, hz, hxy, hcore⟩
      · exact ⟨z, hz, hxy, sameCore_trans hcore ⟨rfl, rfl, rfl, rfl, rfl, rfl⟩⟩
    · rw [if_neg hc] at hy
      exact ⟨y, hy, hxy, hcore⟩

/-! ## `Portfolio.__post_init__` lemmas -/

lemma foldl_postInit_assets (l : List (String × Asset)) :
    ∀ p : Portfolio, (l.foldl (fun p x => p.postInitStep x.2) p).assets = p.assets := by
  induction l with
  | nil => intro p; rfl
  | cons x xs ih => intro p; rw [List.foldl_cons]; exact ih _

lemma foldl_postInit_corr (l : List (String × Asset)) :
    ∀ p : Portfolio, (l.foldl (fun p x => p.postInitStep x.2) p).correlation_matrix
      = p.correlation_matrix := by
  induction l with
  | nil => intro p; rfl
  | cons x xs ih => intro p; rw [List.foldl_cons]; exact ih _

lemma foldl_postInit_te (l : List (String × Asset)) :
    ∀ p : Portfolio, (l.foldl (fun p x => p.postInitStep x.2) p).total_exposure
      = p.total_exposure + (l.map fun x => x.2.total_exposure).sum := by
  induction l with
  | nil => intro p; simp
  | cons x xs ih =>
    intro p
    rw [List.foldl_cons, ih]
    show (p.postInitStep x.2).total_exposure + _ = _
    rw [Portfolio.postInitStep]
    simp only [List.map_cons, List.sum_cons]
    ring

lemma foldl_postInit_tp (l : List (String × Asset)) :
    ∀ p : Portfolio, (l.foldl (fun p x => p.postInitStep x.2) p).total_profit
      = p.total_profit + (l.map fun x => x.2.total_profit).sum := by
  induction l with
  | nil => intro p; simp
  | cons x xs ih =>
    intro p
    rw [List.foldl_cons, ih]
    show (p.postInitStep x.2).total_profit + _ = _
    rw [Portfolio.postInitStep]
    simp only [List.map_cons, List.sum_cons]
    ring

lemma foldl_postInit_trwa (l : List (String × Asset)) :
    ∀ p : Portfolio, (l.foldl (fun p x => p.postInitStep x.2) p).total_risk_weighted_assets
      = p.total_risk_weighted_assets + (l.map fun x => x.2.total_risk_weighted_assets).sum := by
  induction l with
  | nil => intro p; simp
  | cons x xs ih =>
    intro p
    rw [List.foldl_cons, ih]
    show (p.postInitStep x.2).total_risk_weighted_assets + _ = _
    rw [Portfolio.postInitStep]
    simp only [List.map_cons, List.sum_cons]
    ring

lemma mkPortfolio_assets (pid : String) (l : List (String × Asset)) (c : CorrMatrix) :
    (mkPortfolio pid l c).assets = l :=
  foldl_postInit_assets l _

lemma mkPortfolio_corr (pid : String) (l : List (String × Asset)) (c : CorrMatrix) :
    (mkPortfolio pid l c).correlation_matrix = c :=
  foldl_postInit_corr l _

lemma mkPortfolio_te (pid : String) (l : List (String × Asset)) (c : CorrMatrix) :
    (mkPortfolio pid l c).total_exposure = (l.map fun x => x.2.total_exposure).sum := by
  rw [mkPortfolio, foldl_postInit_te]
  simp

lemma mkPortfolio_tp (pid : String) (l : List (String × Asset)) (c : CorrMatrix) :
    (mkPortfolio pid l c).total_profit = (l.map fun x => x.2.total_profit).sum := by
  rw [mkPortfolio, foldl_postInit_tp]
  simp

lemma mkPortfolio_trwa (pid : String) (l : List (String × Asset)) (c : CorrMatrix) :
    (mkPortfolio pid l c).total_risk_weighted_assets
      = (l.map fun x => x.2.total_risk_weighted_assets).sum := by
  rw [mkPortfolio, foldl_postInit_trwa]
  simp

lemma mkPortfolio_avg (pid : String) (l : List (String × Asset)) (c : CorrMatrix) :
    (mkPortfolio pid l c).average_risk_weight
      = if 0 < (mkPortfolio pid l c).total_exposure
        then (mkPortfolio pid l c).total_risk_weighted_assets
              / (mkPortfolio pid l c).total_exposure
        else 0 := by
  rcases (List.eq_nil_or_concat l) with h | ⟨L, b, h⟩
  · subst h
    simp [mkPortfolio]
  · rw [mkPortfolio]
    conv_lhs => rw [h]
    conv_rhs => rw [h]
    rw [List.concat_eq_append, List.foldl_append]
    rfl

lemma from_csv_assets (iname : String) (segRows : List SegRow)
    (assetRows : List AssetRow) (corr : CorrMatrix) :
    (from_csv iname segRows assetRows corr).assets
      = assetRows.foldl fromCsvAssetStep (segRows.foldl fromCsvSegStep []) := by
  rw [from_csv]
  exact mkPortfolio_assets _ _ _

lemma newSegmentOf_ok (nd : Alloc) (aid : String) (s : Segment)
    (h : (assocFind nd (aid, s.segment_id)).isSome = true) :
    newSegmentOf nd aid s = .ok (roundedSegment nd aid s) := by
  rw [newSegmentOf]
  cases hf : assocFind nd (aid, s.segment_id) with
  | none => rw [hf] at h; exact absurd h (by simp)
  | some m => rw [roundedSegment, hf]; rfl

lemma newSegmentOf_err (nd : Alloc) (aid : String) (s : Segment)
    (h : assocFind nd (aid, s.segment_id) = none) :
    newSegmentOf nd aid s = .error (.keyError (aid, s.segment_id)) := by
  rw [newSegmentOf, h]

lemma roundedSegment_of_find (nd : Alloc) (aid : String) (s : Segment) (m : ℚ)
    (h : assocFind nd (aid, s.segment_id) = some m) :
    roundedSegment nd aid s = { s with exposure := (pyRound (m * s.exposure) : ℚ) } := by
  rw [roundedSegment, h]
  rfl

lemma npInner_ok (nd : Alloc) (orig : Asset) :
    ∀ (segs : List (String × Segment)) (accPre : List (String × Asset)) (a : Asset),
      assocContains accPre orig.asset_id = false →
      (∀ y ∈ segs, (assocFind nd (orig.asset_id, y.2.segment_id)).isSome = true) →
      segs.foldlM (fun acc2 y => npSegStep nd orig acc2 y.2) (accPre ++ [(orig.asset_id, a)])
        = .ok (accPre ++ [(orig.asset_id,
            (segs.map fun y => roundedSegment nd orig.asset_id y.2).foldl
              Asset.add_segment a)]) := by
  intro segs
  induction segs with
  | nil => intro accPre a _ _; rw [List.foldlM_nil]; rfl
  | cons y ys ih =>
    intro accPre a hnotin hpres
    rw [List.foldlM_cons]
    have hstep : npSegStep nd orig (accPre ++ [(orig.asset_id, a)]) y.2
        = .ok (accPre ++ [(orig.asset_id,
            a.add_segment (roundedSegment nd orig.asset_id y.2))]) := by
      rw [npSegStep, newSegmentOf_ok nd orig.asset_id y.2
        (hpres y (List.mem_cons_self y ys))]
      have hcont : assocContains (accPre ++ [(orig.asset_id, a)]) orig.asset_id = true := by
        rw [assocContains_append, hnotin]
        simp [assocContains, assocFind]
      rw [Bind.bind]
      show Except.bind _ _ = _
      rw [Except.bind, if_pos hcont,
        assocModify_append_notin accPre orig.asset_id a _ hnotin]
      rfl
    rw [hstep]
    show Except.bind _ _ = _
    rw [Except.bind]
    rw [ih accPre (a.add_segment (roundedSegment nd orig.asset_id y.2)) hnotin
      (fun y' hy' => hpres y' (List.mem_cons_of_mem y hy'))]
    rw [List.map_cons, List.foldl_cons]

lemma npAssetStep_ok_build (nd : Alloc) (accPre : List (String × Asset))
    (x : String × Asset)
    (hnotin : assocContains accPre x.2.asset_id = false)
    (hpres : ∀ y ∈ x.2.segments,
      (assocFind nd (x.2.asset_id, y.2.segment_id)).isSome = true) :
    npAssetStep nd accPre x = .ok (accPre ++ npBuiltEntry nd x.2) := by
  rw [npAssetStep, npBuiltEntry]
  cases hsegs : x.2.segments with
  | nil => rw [List.foldlM_nil, List.append_nil]; rfl
  | cons first rest =>
    rw [List.foldlM_cons]
    have hstep : npSegStep nd x.2 accPre first.2
        = .ok (accPre ++ [(x.2.asset_id,
            npSeedAsset x.2 (roundedSegment nd x.2.asset_id first.2))]) := by
      rw [npSegStep, newSegmentOf_ok nd x.2.asset_id first.2
        (hpres first (by rw [hsegs]; exact List.mem_cons_self first rest))]
      rw [Bind.bind]
      show Except.bind _ _ = _
      rw [Except.bind, if_neg (by rw [hnotin]; exact Bool.false_ne_true)]
      rfl
    rw [hstep]
    show Except.bind _ _ = _
    rw [Except.bind]
    rw [npInner_ok nd x.2 rest accPre _ hnotin
      (fun y hy => hpres y (by rw [hsegs]; exact List.mem_cons_of_mem first hy))]
    rfl

lemma npOuter_ok (nd : Alloc) :
    ∀ (xs : List (String × Asset)) (acc : List (String × Asset)),
      (∀ x ∈ xs, assocContains acc x.2.asset_id = false) →
      ((xs.map fun x => x.2.asset_id).Nodup) →
      (∀ x ∈ xs, ∀ y ∈ x.2.segments,
        (assocFind nd (x.2.asset_id, y.2.segment_id)).isSome = true) →
      xs.foldlM (npAssetStep nd) acc = .ok (acc ++ npBuiltList nd xs) := by
  intro xs
  induction xs with
  | nil => intro acc _ _ _; rw [List.foldlM_nil, npBuiltList, List.append_nil]; rfl
  | cons x xs ih =>
    intro acc hnotin hnodup hpres
    rw [List.foldlM_cons,
      npAssetStep_ok_build nd acc x (hnotin x (List.mem_cons_self x xs))
        (hpres x (List.mem_cons_self x xs))]
    show Except.bind _ _ = _
    rw [Except.bind]
    rw [List.map_cons, List.nodup_cons] at hnodup
    have hnotin' : ∀ x' ∈ xs, assocContains (acc ++ npBuiltEntry nd x.2) x'.2.asset_id
        = false := by
      intro x' hx'
      rw [assocContains_append, hnotin x' (List.mem_cons_of_mem x hx')]
      have : assocContains (npBuiltEntry nd x.2) x'.2.asset_id = false := by
        rw [npBuiltEntry]
        cases x.2.segments with
        | nil => rfl
        | cons f r =>
          have hne : ¬ x.2.asset_id = x'.2.asset_id := by
            intro he
            exact hnodup.1
              (by rw [he]; exact List.mem_map_of_mem (fun z => z.2.asset_id) hx')
          rw [assocContains_cons, if_neg hne]
          rfl
      rw [this]
      rfl
    rw [ih (acc ++ npBuiltEntry nd x.2) hnotin' hnodup.2
      (fun x' hx' => hpres x' (List.mem_cons_of_mem x hx')), npBuiltList,
      List.append_assoc]

/-- Success case of `new_portfolio`, with the rebuilt asset dict in
closed form. -/
lemma new_portfolio_ok (iname : String) (p : Portfolio) (nd : Alloc)
    (hnodup : (p.assets.map fun x => x.2.asset_id).Nodup)
    (hpres : ∀ x ∈ p.assets, ∀ y ∈ x.2.segments,
      (assocFind nd (x.2.asset_id, y.2.segment_id)).isSome = true) :
    new_portfolio iname p nd
      = .ok (mkPortfolio (iname ++ "_optimized_portfolio") (npBuiltList nd p.assets) []) := by
  rw [new_portfolio,
    npOuter_ok nd p.assets [] (fun x _ => rfl) hnodup hpres]
  show Except.bind _ _ = _
  rw [Except.bind, List.nil_append]
  rfl

/-- Everything C4 needs about one rebuilt asset: identity and bounds
carried from the original, `profit_stdev` zeroed, the segment dict of
rounded segments, and the aggregates rebuilt from the new exposures. -/
lemma buildNpAsset_spec (nd : Alloc) (orig : Asset) (first : String × Segment)
    (rest : List (String × Segment))
    (hnodup : ((first :: rest).map (fun y => y.2.segment_id)).Nodup) :
    (buildNpAsset nd orig first.2 rest).asset_id = orig.asset_id
    ∧ (buildNpAsset nd orig first.2 rest).min_rel_exposure = orig.min_rel_exposure
    ∧ (buildNpAsset nd orig first.2 rest).max_rel_exposure = orig.max_rel_exposure
    ∧ (buildNpAsset nd orig first.2 rest).profit_stdev = 0
    ∧ (buildNpAsset nd orig first.2 rest).segments
        = (first :: rest).map
            (fun y => (y.2.segment_id, roundedSegment nd orig.asset_id y.2))
    ∧ (buildNpAsset nd orig first.2 rest).total_exposure
        = segExpSum (buildNpAsset nd orig first.2 rest).segments
    ∧ (buildNpAsset nd orig first.2 rest).total_profit
        = segProfitSum (buildNpAsset nd orig first.2 rest).segments
    ∧ (buildNpAsset nd orig first.2 rest).total_risk_weighted_assets
        = segRwaSum (buildNpAsset nd orig first.2 rest).segments
    ∧ (buildNpAsset nd orig first.2 rest).average_risk_weight
        = (if 0 < (buildNpAsset nd orig first.2 rest).total_exposure
          then (buildNpAsset nd orig first.2 rest).total_risk_weighted_assets
                / (buildNpAsset nd orig first.2 rest).total_exposure
          else if rest = [] then first.2.risk_weight else 0) := by
  have hfields := foldl_add_segment_fields
    (rest.map fun y => roundedSegment nd orig.asset_id y.2)
    (npSeedAsset orig (roundedSegment nd orig.asset_id first.2))
  have hnodup' : (((roundedSegment nd orig.asset_id first.2)
      :: rest.map (fun y => roundedSegment nd orig.asset_id y.2)).map
        Segment.segment_id).Nodup := by
    rw [List.map_cons, List.map_map]
    rw [List.map_cons] at hnodup
    exact hnodup
  have hsegs : (buildNpAsset nd orig first.2 rest).segments
      = ((roundedSegment nd orig.asset_id first.2)
          :: rest.map (fun y => roundedSegment nd orig.asset_id y.2)).map
          (fun t => (t.segment_id, t)) :=
    seedFold_segments _ _ _ rfl hnodup'
  have hsegs' : (buildNpAsset nd orig first.2 rest).segments
      = (first :: rest).map
          (fun y => (y.2.segment_id, roundedSegment nd orig.asset_id y.2)) := by
    rw [hsegs, List.map_cons, List.map_map, List.map_cons]
    rfl
  refine ⟨hfields.1, hfields.2.1, hfields.2.2.1, hfields.2.2.2, hsegs', ?_, ?_, ?_, ?_⟩
  · have hx : (buildNpAsset nd orig first.2 rest).total_exposure
        = (npSeedAsset orig (roundedSegment nd orig.asset_id first.2)).total_exposure
          + ((rest.map fun y => roundedSegment nd orig.asset_id y.2).map
              Segment.exposure).sum := by
      rw [buildNpAsset, foldl_add_segment_te]
    rw [hx, hsegs']
    simp only [segExpSum, List.map_map, List.map_cons, List.sum_cons]
    rfl
  · have hx : (buildNpAsset nd orig first.2 rest).total_profit
        = (npSeedAsset orig (roundedSegment nd orig.asset_id first.2)).total_profit
          + ((rest.map fun y => roundedSegment nd orig.asset_id y.2).map
              (fun s => s.profitability * s.exposure)).sum := by
      rw [buildNpAsset, foldl_add_segment_tp]
    rw [hx, hsegs']
    simp only [segProfitSum, List.map_map, List.map_cons, List.sum_cons]
    show (roundedSegment nd orig.asset_id first.2).exposure
          * (roundedSegment nd orig.asset_id first.2).profitability
        + (rest.map (fun y => (roundedSegment nd orig.asset_id y.2).profitability
            * (roundedSegment nd orig.asset_id y.2).exposure)).sum
      = (roundedSegment nd orig.asset_id first.2).profitability
          * (roundedSegment nd orig.asset_id first.2).exposure
        + (rest.map (fun y => (roundedSegment nd orig.asset_id y.2).profitability
            * (roundedSegment nd orig.asset_id y.2).exposure)).sum
    ring
  · have hx : (buildNpAsset nd orig first.2 rest).total_risk_weighted_assets
        = (npSeedAsset orig (roundedSegment nd orig.asset_id first.2)).total_risk_weighted_assets
          + ((rest.map fun y => roundedSegment nd orig.asset_id y.2).map
              (fun s => s.exposure * s.risk_weight)).sum := by
      rw [buildNpAsset, foldl_add_segment_trwa]
    rw [hx, hsegs']
    simp only [segRwaSum, List.map_map, List.map_cons, List.sum_cons]
    rfl
  · cases rest with
    | nil =>
      by_cases hp : 0 < (buildNpAsset nd orig first.2 []).total_exposure
      · rw [if_pos hp]
        rw [buildNpAsset] at hp ⊢
        simp only [List.map_nil, List.foldl_nil] at hp ⊢
        have he : (0:ℚ) < (roundedSegment nd orig.asset_id first.2).exposure := hp
        show (roundedSegment nd orig.asset_id first.2).risk_weight
          = (roundedSegment nd orig.asset_id first.2).exposure
              * (roundedSegment nd orig.asset_id first.2).risk_weight
            / (roundedSegment nd orig.asset_id first.2).exposure
        field_simp
      · rw [if_neg hp, if_pos rfl]
        rfl
    | cons r rs =>
      rw [buildNpAsset]
      rw [foldl_add_segment_avg _ (by simp) _]
      by_cases hp : 0 < (List.foldl Asset.add_segment
          (npSeedAsset orig (roundedSegment nd orig.asset_id first.2))
          ((r :: rs).map fun y => roundedSegment nd orig.asset_id y.2)).total_exposure
      · rw [if_pos hp, if_pos hp]
      · rw [if_neg hp, if_neg hp, if_neg (List.cons_ne_nil r rs)]

lemma mem_npBuiltList (nd : Alloc) :
    ∀ (xs : List (String × Asset)) (x : String × Asset), x ∈ xs →
      ∀ (first : String × Segment) (rest : List (String × Segment)),
        x.2.segments = first :: rest →
        (x.2.asset_id, buildNpAsset nd x.2 first.2 rest) ∈ npBuiltList nd xs := by
  intro xs
  induction xs with
  | nil => intro x hx; exact absurd hx (List.not_mem_nil x)
  | cons z zs ih =>
    intro x hx first rest hsegs
    rw [npBuiltList]
    rcases List.mem_cons.mp hx with rfl | hx'
    · apply List.mem_append_left
      rw [npBuiltEntry, hsegs]
      exact List.mem_singleton.mpr rfl
    · exact List.mem_append_right _ (ih x hx' first rest hsegs)

/-! ## Rounding identity on integers -/

lemma pyRound_int (n : ℤ) : pyRound (n : ℚ) = n := by
  simp only [pyRound, Int.floor_intCast, sub_self]
  norm_num

lemma roundedSegment_one (nd : Alloc) (aid : String) (s : Segment)
    (h : assocFind nd (aid, s.segment_id) = some 1)
    (hint : ∃ n : ℤ, s.exposure = (n : ℚ)) :
    roundedSegment nd aid s = s := by
  obtain ⟨n, hn⟩ := hint
  rw [roundedSegment_of_find nd aid s 1 h, one_mul, hn, pyRound_int, ← hn]

/-- With all multipliers `1` and integral exposures, the rebuilt asset's
aggregates are the sums over the original segment dict. -/
lemma buildNpAsset_id_aggregates (nd : Alloc) (orig : Asset)
    (first : String × Segment) (rest : List (String × Segment))
    (hsegs : orig.segments = first :: rest)
    (hnodup : (orig.segments.map fun y => y.2.segment_id).Nodup)
    (hone : ∀ y ∈ orig.segments, assocFind nd (orig.asset_id, y.2.segment_id) = some 1)
    (hint : ∀ y ∈ orig.segments, ∃ n : ℤ, y.2.exposure = (n : ℚ)) :
    (buildNpAsset nd orig first.2 rest).total_exposure = segExpSum orig.segments
    ∧ (buildNpAsset nd orig first.2 rest).total_profit = segProfitSum orig.segments
    ∧ (buildNpAsset nd orig first.2 rest).total_risk_weighted_assets
        = segRwaSum orig.segments := by
  have hnodupx : ((first :: rest).map fun y => y.2.segment_id).Nodup := by
    rw [← hsegs]; exact hnodup
  obtain ⟨_, _, _, _, ha5, ha6, ha7, ha8, _⟩ := buildNpAsset_spec nd orig first rest hnodupx
  have hsegs2 : (buildNpAsset nd orig first.2 rest).segments
      = (first :: rest).map (fun y => (y.2.segment_id, y.2)) := by
    rw [ha5]
    apply List.map_congr_left
    intro y hy
    rw [roundedSegment_one nd orig.asset_id y.2 (hone y (by rw [hsegs]; exact hy))
      (hint y (by rw [hsegs]; exact hy))]
  refine ⟨?_, ?_, ?_⟩
  · rw [ha6, hsegs2, hsegs, segExpSum, segExpSum, List.map_map]
    rfl
  · rw [ha7, hsegs2, hsegs, segProfitSum, segProfitSum, List.map_map]
    rfl
  · rw [ha8, hsegs2, hsegs, segRwaSum, segRwaSum, List.map_map]
    rfl

/-- With all multipliers `1` and integral exposures, `new_assets`
contributes, asset by asset, the same three totals as the original
assets (an asset with no segments contributes nothing and has zero
totals). -/
lemma npBuiltList_sums (nd : Alloc) :
    ∀ (xs : List (String × Asset)),
      (∀ x ∈ xs, ∀ y ∈ x.2.segments,
        assocFind nd (x.2.asset_id, y.2.segment_id) = some 1) →
      (∀ x ∈ xs, ∀ y ∈ x.2.segments, ∃ n : ℤ, y.2.exposure = (n : ℚ)) →
      (∀ x ∈ xs, (x.2.segments.map fun y => y.2.segment_id).Nodup) →
      (∀ x ∈ xs, x.2.total_exposure = segExpSum x.2.segments
        ∧ x.2.total_profit = segProfitSum x.2.segments
        ∧ x.2.total_risk_weighted_assets = segRwaSum x.2.segments) →
      ((npBuiltList nd xs).map fun x => x.2.total_exposure).sum
          = (xs.map fun x => x.2.total_exposure).sum
      ∧ ((npBuiltList nd xs).map fun x => x.2.total_profit).sum
          = (xs.map fun x => x.2.total_profit).sum
      ∧ ((npBuiltList nd xs).map fun x => x.2.total_risk_weighted_assets).sum
          = (xs.map fun x => x.2.total_risk_weighted_assets).sum := by
  intro xs
  induction xs with
  | nil => intro _ _ _ _; exact ⟨rfl, rfl, rfl⟩
  | cons x xs ih =>
    intro hone hint hnodup hcons
    obtain ⟨ih1, ih2, ih3⟩ := ih
      (fun x' hx' => hone x' (List.mem_cons_of_mem x hx'))
      (fun x' hx' => hint x' (List.mem_cons_of_mem x hx'))
      (fun x' hx' => hnodup x' (List.mem_cons_of_mem x hx'))
      (fun x' hx' => hcons x' (List.mem_cons_of_mem x hx'))
    obtain ⟨hc1, hc2, hc3⟩ := hcons x (List.mem_cons_self x xs)
    rw [npBuiltList, npBuiltEntry]
    cases hsegs : x.2.segments with
    | nil =>
      rw [hsegs] at hc1 hc2 hc3
      simp only [List.nil_append, List.map_cons, List.sum_cons]
      refine ⟨?_, ?_, ?_⟩
      · rw [ih1, hc1]; show _ = (0:ℚ) + _; rw [zero_add]
      · rw [ih2, hc2]; show _ = (0:ℚ) + _; rw [zero_add]
      · rw [ih3, hc3]; show _ = (0:ℚ) + _; rw [zero_add]
    | cons first rest =>
      obtain ⟨hb1, hb2, hb3⟩ := buildNpAsset_id_aggregates nd x.2 first rest hsegs
        (hnodup x (List.mem_cons_self x xs)) (hone x (List.mem_cons_self x xs))
        (hint x (List.mem_cons_self x xs))
      simp only [List.cons_append, List.nil_append, List.map_cons, List.sum_cons]
      refine ⟨?_, ?_, ?_⟩
      · rw [ih1, hb1, hc1]
      · rw [ih2, hb2, hc2]
      · rw [ih3, hb3, hc3]

/-! ## Failure behaviour of `new_portfolio` -/

lemma assocFind_mem {κ α : Type} [DecidableEq κ] (l : List (κ × α)) (k : κ) (v : α)
    (h : assocFind l k = some v) : (k, v) ∈ l := by
  induction l with
  | nil => exact absurd h (by rw [assocFind]; simp)
  | cons x xs ih =>
    rw [assocFind_cons] at h
    by_cases hx : x.1 = k
    · rw [if_pos hx] at h
      have : x = (k, v) := Prod.ext hx (Option.some.inj h)
      rw [← this]
      exact List.mem_cons_self x xs
    · rw [if_neg hx] at h
      exact List.mem_cons_of_mem x (ih h)

lemma overlay_find_unchanged (ars : List AssetRow) :
    ∀ (acc : List (String × Asset)) (k : String), (∀ ar ∈ ars, ar.asset ≠ k) →
      assocFind (ars.foldl fromCsvAssetStep acc) k = assocFind acc k := by
  induction ars with
  | nil => intro acc k _; rfl
  | cons ar ars ih =>
    intro acc k hne
    rw [List.foldl_cons, ih (fromCsvAssetStep acc ar) k
      (fun ar' har' => hne ar' (List.mem_cons_of_mem ar har')), fromCsvAssetStep]
    by_cases hc : assocContains acc ar.asset = true
    · rw [if_pos hc]
      exact assocFind_modify_ne acc ar.asset k _
        (fun he => hne ar (List.mem_cons_self ar ars) he.symm)
    · rw [if_neg hc]

lemma npSegStep_err (nd : Alloc) (orig : Asset) (acc : List (String × Asset))
    (s : Segment) (e : PyError) (h : npSegStep nd orig acc s = .error e) :
    ∃ k, e = .keyError k ∧ assocFind nd k = none := by
  rw [npSegStep] at h
  cases hf : assocFind nd (orig.asset_id, s.segment_id) with
  | none =>
    rw [newSegmentOf_err nd orig.asset_id s hf] at h
    refine ⟨(orig.asset_id, s.segment_id), ?_, hf⟩
    simp only [Bind.bind, Except.bind] at h
    exact (Except.error.inj h).symm
  | some m =>
    rw [newSegmentOf_ok nd orig.asset_id s (by rw [hf]; rfl)] at h
    simp only [Bind.bind, Except.bind] at h
    by_cases hc : assocContains acc orig.asset_id = true
    · rw [if_pos hc] at h
      exact absurd h (by simp [pure, Except.pure])
    · rw [if_neg hc] at h
      exact absurd h (by simp [pure, Except.pure])

lemma foldlM_except_err {ε α β : Type} (f : β → α → Except ε β) (Q : ε → Prop)
    (hf : ∀ b a e, f b a = .error e → Q e) :
    ∀ (l : List α) (b : β) (e : ε), l.foldlM f b = .error e → Q e := by
  intro l
  induction l with
  | nil =>
    intro b e h
    rw [List.foldlM_nil] at h
    exact absurd h (by simp [pure, Except.pure])
  | cons x xs ih =>
    intro b e h
    rw [List.foldlM_cons] at h
    cases hfx : f b x with
    | error e0 =>
      rw [hfx] at h
      simp only [Bind.bind, Except.bind] at h
      exact (Except.error.inj h) ▸ hf b x e0 hfx
    | ok b1 =>
      rw [hfx] at h
      simp only [Bind.bind, Except.bind] at h
      exact ih b1 e h

lemma new_portfolio_err_shape (iname : String) (p : Portfolio) (nd : Alloc)
    (e : PyError) (h : new_portfolio iname p nd = .error e) :
    ∃ k, e = .keyError k ∧ assocFind nd k = none := by
  rw [new_portfolio] at h
  cases hfold : p.assets.foldlM (npAssetStep nd) [] with
  | ok na =>
    rw [hfold] at h
    simp only [Bind.bind, Except.bind] at h
    exact absurd h (by simp [pure, Except.pure])
  | error e0 =>
    rw [hfold] at h
    simp only [Bind.bind, Except.bind] at h
    have he : e = e0 := (Except.error.inj h).symm
    subst he
    refine foldlM_except_err (npAssetStep nd)
      (fun e' => ∃ k, e' = PyError.keyError k ∧ assocFind nd k = none)
      ?_ p.assets [] e hfold
    intro b a e1 hstep
    rw [npAssetStep] at hstep
    exact foldlM_except_err (fun acc2 y => npSegStep nd a.2 acc2 y.2) _
      (fun b2 y e2 hs => npSegStep_err nd a.2 b2 y.2 e2 hs) a.2.segments b e1 hstep

lemma foldlM_except_cons_ok {ε α β : Type} (f : β → α → Except ε β) (x : α)
    (xs : List α) (b b' : β) (h : (x :: xs).foldlM f b = .ok b') :
    ∃ b1, f b x = .ok b1 ∧ xs.foldlM f b1 = .ok b' := by
  rw [List.foldlM_cons] at h
  cases hfx : f b x with
  | error e0 =>
    rw [hfx] at h
    simp only [Bind.bind, Except.bind] at h
    exact absurd h (by simp)
  | ok b1 =>
    rw [hfx] at h
    simp only [Bind.bind, Except.bind] at h
    exact ⟨b1, rfl, h⟩

lemma npSegStep_ok_present (nd : Alloc) (orig : Asset) (acc : List (String × Asset))
    (s : Segment) (acc' : List (String × Asset))
    (h : npSegStep nd orig acc s = .ok acc') :
    (assocFind nd (orig.asset_id, s.segment_id)).isSome = true := by
  cases hf : assocFind nd (orig.asset_id, s.segment_id) with
  | none =>
    rw [npSegStep, newSegmentOf_err nd orig.asset_id s hf] at h
    simp only [Bind.bind, Except.bind] at h
    exact absurd h (by simp)
  | some m => rfl

lemma npInner_ok_present (nd : Alloc) (orig : Asset) :
    ∀ (segs : List (String × Segment)) (acc acc' : List (String × Asset)),
      segs.foldlM (fun acc2 y => npSegStep nd orig acc2 y.2) acc = .ok acc' →
      ∀ y ∈ segs, (assocFind nd (orig.asset_id, y.2.segment_id)).isSome = true := by
  intro segs
  induction segs with
  | nil => intro acc acc' _ y hy; exact absurd hy (List.not_mem_nil y)
  | cons z zs ih =>
    intro acc acc' h y hy
    obtain ⟨b1, hz, hrest⟩ := foldlM_except_cons_ok _ z zs acc acc' h
    rcases List.mem_cons.mp hy with rfl | hy'
    · exact npSegStep_ok_present nd orig acc y.2 b1 hz
    · exact ih b1 acc' hrest y hy'

lemma npFold_ok_present (nd : Alloc) :
    ∀ (xs : List (String × Asset)) (acc res : List (String × Asset)),
      xs.foldlM (npAssetStep nd) acc = .ok res →
      ∀ x ∈ xs, ∀ y ∈ x.2.segments,
        (assocFind nd (x.2.asset_id, y.2.segment_id)).isSome = true := by
  intro xs
  induction xs with
  | nil => intro acc res _ x hx; exact absurd hx (List.not_mem_nil x)
  | cons z zs ih =>
    intro acc res h x hx
    obtain ⟨b1, hz, hrest⟩ := foldlM_except_cons_ok _ z zs acc res h
    rcases List.mem_cons.mp hx with rfl | hx'
    · rw [npAssetStep] at hz
      exact npInner_ok_present nd x.2 x.2.segments acc b1 hz
    · exact ih b1 res hrest x hx'

/-- A missing allocation entry makes `new_portfolio` raise `KeyError`
(for a key absent from the allocation); it raises nothing else. -/
lemma new_portfolio_missing_err (iname : String) (p : Portfolio) (nd : Alloc)
    (hmiss : ∃ x ∈ p.assets, ∃ y ∈ x.2.segments,
      assocFind nd (x.2.asset_id, y.2.segment_id) = none) :
    ∃ k, new_portfolio iname p nd = .error (.keyError k) ∧ assocFind nd k = none := by
  cases hres : new_portfolio iname p nd with
  | ok q =>
    exfalso
    rw [new_portfolio] at hres
    cases hfold : p.assets.foldlM (npAssetStep nd) [] with
    | error e0 =>
      rw [hfold] at hres
      simp only [Bind.bind, Except.bind] at hres
      exact absurd hres (by simp)
    | ok na =>
      obtain ⟨x, hx, y, hy, hnone⟩ := hmiss
      have := npFold_ok_present nd p.assets [] na hfold x hx y hy
      rw [hnone] at this
      exact absurd this (by simp)
  | error e =>
    obtain ⟨k, he, hk⟩ := new_portfolio_err_shape iname p nd e hres
    exact ⟨k, by rw [he], hk⟩

lemma Store.Grows.refl (h : Store) : h.Grows h :=
  ⟨⟨[], (List.append_nil _).symm⟩, ⟨[], (List.append_nil _).symm⟩⟩

lemma Store.Grows.trans {h1 h2 h3 : Store} (a : h1.Grows h2) (b : h2.Grows h3) :
    h1.Grows h3 := by
  obtain ⟨⟨t1, ht1⟩, ⟨u1, hu1⟩⟩ := a
  obtain ⟨⟨t2, ht2⟩, ⟨u2, hu2⟩⟩ := b
  exact ⟨⟨t1 ++ t2, by rw [ht2, ht1, List.append_assoc]⟩,
    ⟨u1 ++ u2, by rw [hu2, hu1, List.append_assoc]⟩⟩

lemma Store.Grows.seg_le {h h' : Store} (a : h.Grows h') :
    h.segCells.length ≤ h'.segCells.length := by
  obtain ⟨⟨t, ht⟩, _⟩ := a
  rw [ht, List.length_append]
  exact Nat.le_add_right _ _

lemma Store.Grows.asset_le {h h' : Store} (a : h.Grows h') :
    h.assetCells.length ≤ h'.assetCells.length := by
  obtain ⟨_, ⟨t, ht⟩⟩ := a
  rw [ht, List.length_append]
  exact Nat.le_add_right _ _

lemma grows_allocSeg (h : Store) (s : Segment) : h.Grows (h.allocSeg s).1 :=
  ⟨⟨[s], rfl⟩, ⟨[], (List.append_nil _).symm⟩⟩

lemma grows_allocAsset (h : Store) (a : AssetObj) : h.Grows (h.allocAsset a).1 :=
  ⟨⟨[], (List.append_nil _).symm⟩, ⟨[a], rfl⟩⟩

lemma grows_writeSeg {h0 h : Store} (hg : h0.Grows h) (i : Nat)
    (hi : h0.segCells.length ≤ i) (s : Segment) : h0.Grows (h.writeSeg i s) := by
  obtain ⟨⟨t, ht⟩, hassets⟩ := hg
  refine ⟨⟨t.set (i - h0.segCells.length) s, ?_⟩, hassets⟩
  show (h.segCells.set i s) = _
  rw [ht, List.set_append_right i s hi]

lemma grows_writeAsset {h0 h : Store} (hg : h0.Grows h) (i : Nat)
    (hi : h0.assetCells.length ≤ i) (a : AssetObj) : h0.Grows (h.writeAsset i a) := by
  obtain ⟨hsegs, ⟨t, ht⟩⟩ := hg
  refine ⟨hsegs, ⟨t.set (i - h0.assetCells.length) a, ?_⟩⟩
  show (h.assetCells.set i a) = _
  rw [ht, List.set_append_right i a hi]

lemma soSegStep_inv (nd : Alloc) (origAddr : Nat) (h0 : Store)
    (acc : Store × Except PyError (List (String × Nat))) (saddr : Nat)
    (hinv : SoInv h0 acc) : SoInv h0 (soSegStep nd origAddr acc saddr) := by
  obtain ⟨hg, hok⟩ := hinv
  obtain ⟨h, res⟩ := acc
  cases res with
  | error e => exact ⟨hg, by intro l hl; cases hl⟩
  | ok newAssets =>
    rw [soSegStep]
    have hg1 := hg.trans (grows_allocSeg h (segmentCopy (h.readSeg saddr)))
    cases hf : assocFind nd ((h.readAsset origAddr).asset_id,
        (h.readSeg saddr).segment_id) with
    | none => exact ⟨hg1, by intro l hl; cases hl⟩
    | some m =>
      have hg2 := grows_writeSeg hg1 (h.allocSeg (segmentCopy (h.readSeg saddr))).2
        hg.seg_le
        { h.readSeg saddr with exposure := (pyRound (m * (h.readSeg saddr).exposure) : ℚ) }
      cases hfa : assocFind newAssets (h.readAsset origAddr).asset_id with
      | some aaddr =>
        have haddr : h0.assetCells.length ≤ aaddr :=
          hok newAssets rfl _ (assocFind_mem _ _ _ hfa)
        refine ⟨grows_writeAsset hg2 aaddr haddr _, ?_⟩
        intro l hl
        cases hl
        exact hok newAssets rfl
      | none =>
        refine ⟨hg2.trans (grows_allocAsset _ _), ?_⟩
        intro l hl
        cases hl
        intro e he
        rcases List.mem_append.mp he with h' | h'
        · exact hok newAssets rfl e h'
        · rw [List.mem_singleton.mp h']
          exact hg2.asset_le

lemma foldl_pres_inv {α β : Type} (P : β → Prop) (f : β → α → β)
    (hf : ∀ b a, P b → P (f b a)) :
    ∀ (l : List α) (b : β), P b → P (l.foldl f b) := by
  intro l
  induction l with
  | nil => intro b hb; exact hb
  | cons x xs ih => intro b hb; rw [List.foldl_cons]; exact ih (f b x) (hf b x hb)

lemma soAssetStep_inv (nd : Alloc) (h0 : Store)
    (acc : Store × Except PyError (List (String × Nat))) (entry : String × Nat)
    (hinv : SoInv h0 acc) : SoInv h0 (soAssetStep nd acc entry) := by
  obtain ⟨h, res⟩ := acc
  cases res with
  | error e => exact hinv
  | ok newAssets =>
    rw [soAssetStep]
    exact foldl_pres_inv (SoInv h0) (fun acc2 y => soSegStep nd entry.2 acc2 y.2)
      (fun acc2 y hinv2 => soSegStep_inv nd entry.2 h0 acc2 y.2 hinv2)
      (h.readAsset entry.2).segments (h, .ok newAssets) hinv

/-! ## Theorems -/

/-- Invariant preservation through a monadic fold over `Except`. -/
lemma foldlM_except_inv {ε α β : Type} (f : β → α → Except ε β) (P : β → Prop)
    (hf : ∀ b a b', f b a = .ok b' → P b → P b') :
    ∀ (l : List α) (b b' : β), l.foldlM f b = Except.ok b' → P b → P b' := by
  intro l
  induction l with
  | nil =>
    intro b b' h hb
    simp only [List.foldlM_nil] at h
    cases h
    exact hb
  | cons x xs ih =>
    intro b b' h hb
    simp only [List.foldlM_cons] at h
    cases hfx : f b x with
    | error e => rw [hfx] at h; exact absurd h (by simp [Bind.bind, Except.bind])
    | ok b1 =>
      rw [hfx] at h
      simp only [Bind.bind, Except.bind] at h
      exact ih b1 b' h (hf b x b1 hfx hb)

/-- `npSegStep` preserves any property of the accumulated asset dict
that holds for modified entries (after `add_segment`) and for the seed
asset. -/
lemma npSegStep_stdev (nd : Alloc) (orig : Asset)
    (acc : List (String × Asset)) (s : Segment) (acc' : List (String × Asset))
    (h : npSegStep nd orig acc s = .ok acc')
    (hacc : ∀ y ∈ acc, y.2.profit_stdev = 0) :
    ∀ y ∈ acc', y.2.profit_stdev = 0 := by
  rw [npSegStep] at h
  cases hns : newSegmentOf nd orig.asset_id s with
  | error e => rw [hns] at h; exact absurd h (by simp [Bind.bind, Except.bind])
  | ok ns =>
    rw [hns] at h
    simp only [Bind.bind, Except.bind] at h
    by_cases hc : assocContains acc orig.asset_id = true
    · rw [if_pos hc] at h
      cases h
      intro y hy
      obtain ⟨z, hz, hcase⟩ := mem_assocModify _ _ _ y hy
      rcases hcase with ⟨_, rfl⟩ | ⟨_, rfl⟩
      · exact hacc y hz
      · exact hacc z hz
    · rw [if_neg hc] at h
      cases h
      intro y hy
      rcases List.mem_append.mp hy with h' | h'
      · exact hacc y h'
      · rw [List.mem_singleton.mp h']
        rfl

/-- C10: every asset of a portfolio returned by `new_portfolio` has
profit standard deviation `0` (the original's value is not carried
over: the seed constructor omits the `profit_stdev` argument and
`add_segment` never sets it), and the returned portfolio's correlation
matrix is empty (the `Portfolio` is constructed without one). -/
theorem new_portfolio_stdev_zero_and_corr_empty
    (iname : String) (p : Portfolio) (nd : Alloc) (q : Portfolio)
    (h : new_portfolio iname p nd = .ok q) :
    (∀ x ∈ q.assets, x.2.profit_stdev = 0) ∧ q.correlation_matrix = [] := by
  rw [new_portfolio] at h
  cases hfold : p.assets.foldlM (npAssetStep nd) [] with
  | error e => rw [hfold] at h; exact absurd h (by simp [Bind.bind, Except.bind])
  | ok na =>
    rw [hfold] at h
    simp only [Bind.bind, Except.bind, pure, Except.pure] at h
    cases h
    constructor
    · rw [mkPortfolio_assets]
      refine foldlM_except_inv (npAssetStep nd) (fun acc => ∀ y ∈ acc, y.2.profit_stdev = 0)
        ?_ p.assets [] na hfold (fun y hy => absurd hy (List.not_mem_nil y))
      intro b a b' hstep hb
      rw [npAssetStep] at hstep
      exact foldlM_except_inv (fun acc2 y => npSegStep nd a.2 acc2 y.2)
        (fun acc => ∀ y ∈ acc, y.2.profit_stdev = 0)
        (fun b2 y b2' hs hb2 => npSegStep_stdev nd a.2 b2 y.2 b2' hs hb2)
        a.2.segments b b' hstep hb
    · rw [mkPortfolio_corr]

/-- C10 witness: the theorem applied to the empty portfolio, for which
`new_portfolio` succeeds by computation. -/
theorem new_portfolio_stdev_zero_and_corr_empty_witness :
    (∀ x ∈ (mkPortfolio ("t" ++ "_optimized_portfolio") [] []).assets,
      x.2.profit_stdev = 0)
    ∧ (mkPortfolio ("t" ++ "_optimized_portfolio") [] []).correlation_matrix = [] :=
  new_portfolio_stdev_zero_and_corr_empty "t" (mkPortfolio "p" [] []) [] _ rfl

lemma sameCore_consistent {a b : Asset} (h : SameCore a b)
    (hb : AssetAggConsistent b) : AssetAggConsistent a := by
  obtain ⟨_, hseg, hte, htp, htrwa, havg⟩ := h
  rw [AssetAggConsistent, hseg, hte, htp, htrwa, havg]
  exact hb

lemma rowsFor_segment_ids_nodup (aid : String) (rows : List SegRow)
    (h : (rows.map SegRow.segment_id).Nodup) :
    (((rowsFor aid rows).map segOfRow).map Segment.segment_id).Nodup := by
  rw [List.map_map]
  have hsub : List.Sublist ((rowsFor aid rows).map SegRow.segment_id)
      (rows.map SegRow.segment_id) :=
    (List.filter_sublist rows).map SegRow.segment_id
  exact h.sublist hsub

/-- C6 counterexample: adding the same segment id twice (the second call
replaces the dict entry but still increments the running totals) leaves
total exposure `2` while the segment set's exposures sum to `1`: the
aggregates are not the sums over the segment set after an arbitrary
sequence of `add_segment` calls. -/
theorem add_segment_duplicate_id_breaks_sums :
    ([c6seg, c6seg].foldl Asset.add_segment (Asset.fresh "A1")).total_exposure = 2
    ∧ segExpSum ([c6seg, c6seg].foldl Asset.add_segment (Asset.fresh "A1")).segments = 1
    ∧ ¬ AssetAggConsistent ([c6seg, c6seg].foldl Asset.add_segment (Asset.fresh "A1")) := by
  have h1 : ([c6seg, c6seg].foldl Asset.add_segment (Asset.fresh "A1")).total_exposure
      = 2 := by
    simp [c6seg, Asset.fresh, Asset.add_segment, List.foldl]
    norm_num
  have h2 : segExpSum ([c6seg, c6seg].foldl Asset.add_segment (Asset.fresh "A1")).segments
      = 1 := by
    simp [c6seg, Asset.fresh, Asset.add_segment, assocContains, assocFind, assocModify,
      segExpSum, List.foldl]
  refine ⟨h1, h2, fun h => ?_⟩
  have h3 := h.1
  rw [h1, h2] at h3
  norm_num at h3

/-- C6 (amended): after any sequence of `addSegment` calls with pairwise
distinct segment ids on a fresh `Asset`, the aggregates satisfy the four
specified equations (total exposure, total profit and total
risk-weighted value are the sums over the segment set; the average risk
weight is total risk-weighted value over total exposure, and `0` when
total exposure is `0`); every asset built by the instance builder's
`from_csv` satisfies the same equations provided the segment ids are
distinct and every row's exposure is positive (with a zero-exposure
first row, `from_csv` seeds the average risk weight with that row's risk
weight instead of `0`, and a duplicated id double-counts the totals). -/
theorem aggregates_consistent :
    (∀ (aid : String) (l : List Segment), (l.map Segment.segment_id).Nodup →
      AssetAggConsistent (l.foldl Asset.add_segment (Asset.fresh aid)))
    ∧ (∀ (iname : String) (segRows : List SegRow) (assetRows : List AssetRow)
        (corr : CorrMatrix),
        (segRows.map SegRow.segment_id).Nodup →
        (∀ r ∈ segRows, 0 < r.exposure) →
        ∀ x ∈ (from_csv iname segRows assetRows corr).assets,
          AssetAggConsistent x.2) := by
  constructor
  · intro aid l hnodup
    cases l with
    | nil =>
      refine ⟨rfl, rfl, rfl, fun h => absurd h (lt_irrefl 0), fun _ => rfl⟩
    | cons s rest =>
      have hne : (s :: rest) ≠ [] := by simp
      have hsegs := foldl_add_segment_segments (s :: rest) (Asset.fresh aid)
        (fun t _ => rfl) hnodup
      rw [show (Asset.fresh aid).segments = [] from rfl, List.nil_append] at hsegs
      refine ⟨?_, ?_, ?_, ?_, ?_⟩
      · rw [foldl_add_segment_te, hsegs, segExpSum, List.map_map]
        simp [Function.comp_def, Asset.fresh]
      · rw [foldl_add_segment_tp, hsegs, segProfitSum, List.map_map]
        simp [Function.comp_def, Asset.fresh]
      · rw [foldl_add_segment_trwa, hsegs, segRwaSum, List.map_map]
        simp [Function.comp_def, Asset.fresh]
      · intro hp
        rw [foldl_add_segment_avg _ hne, if_pos hp]
      · intro hz
        rw [foldl_add_segment_avg _ hne, if_neg (by rw [hz]; exact lt_irrefl 0)]
  · intro iname segRows assetRows corr hnodup hpos x hx
    rw [from_csv_assets] at hx
    obtain ⟨y, hy, _, hcore⟩ := overlay_preserves_core assetRows _ x hx
    obtain ⟨hinv1, _, _⟩ := csvInv_full segRows
    obtain ⟨first, rest, hfr, hb⟩ := hinv1 y hy
    apply sameCore_consistent hcore
    rw [hb, buildFromSegs]
    have hnodup2 : ((first :: rest).map Segment.segment_id).Nodup := by
      rw [← hfr]
      exact rowsFor_segment_ids_nodup y.1 segRows hnodup
    have hfirstpos : 0 < first.exposure := by
      have hmem : first ∈ (rowsFor y.1 segRows).map segOfRow := by
        rw [hfr]; exact List.mem_cons_self _ _
      obtain ⟨r0, hr0, hre⟩ := List.mem_map.mp hmem
      have hr0m : r0 ∈ segRows := List.mem_of_mem_filter hr0
      have := hpos r0 hr0m
      rw [← hre]
      exact this
    exact seedFold_consistent first rest _ rfl rfl rfl rfl rfl hnodup2 hfirstpos

/-- C6 witness: the amended statement at a concrete one-segment fold and
a concrete one-row table. -/
theorem aggregates_consistent_witness :
    AssetAggConsistent ([c6seg].foldl Asset.add_segment (Asset.fresh "A1"))
    ∧ (∀ x ∈ (from_csv "t" [⟨"S1", "A1", 1, 0, 0, 0, 0⟩] [] []).assets,
        AssetAggConsistent x.2) :=
  ⟨aggregates_consistent.1 "A1" [c6seg] (by simp),
    aggregates_consistent.2 "t" [⟨"S1", "A1", 1, 0, 0, 0, 0⟩] [] [] (by simp)
      (by intro r hr; rw [List.mem_singleton.mp hr]; norm_num)⟩

/-- C4 (amended): for every original portfolio (with distinct asset ids
and per-asset distinct segment ids, as Python dicts guarantee) and
every allocation containing a multiplier for each (asset, segment)
pair, `new_portfolio` succeeds and, for every asset owning at least one
segment, the rebuilt asset keeps the original's min/max relative
exposure bounds, holds exactly the original segments with each exposure
replaced by `round(multiplier × original_exposure)`, and recomputes
total exposure, total profit and total risk-weighted value as sums over
these new exposures; its average risk weight is the quotient of totals
when the new total exposure is positive, but otherwise it is the first
segment's risk weight for a single-segment asset (the seed constructor
passes it positionally — not the `0` the specification's aggregate
formula demands) and `0` for a multi-segment asset.  The four
portfolio-level aggregates, including the portfolio average risk weight
(quotient of totals, `0` at zero total exposure), are recomputed from
the rebuilt assets. -/
theorem new_portfolio_rebuild_spec
    (iname : String) (p : Portfolio) (nd : Alloc) (mult : String × String → ℚ)
    (hpres : ∀ x ∈ p.assets, ∀ y ∈ x.2.segments,
      assocFind nd (x.2.asset_id, y.2.segment_id)
        = some (mult (x.2.asset_id, y.2.segment_id)))
    (hkeys : (p.assets.map fun x => x.2.asset_id).Nodup)
    (hsegids : ∀ x ∈ p.assets, (x.2.segments.map fun y => y.2.segment_id).Nodup) :
    ∃ q, new_portfolio iname p nd = .ok q
      ∧ (∀ x ∈ p.assets, ∀ (first : String × Segment) rest,
          x.2.segments = first :: rest →
          ∃ a', (x.2.asset_id, a') ∈ q.assets
            ∧ a'.min_rel_exposure = x.2.min_rel_exposure
            ∧ a'.max_rel_exposure = x.2.max_rel_exposure
            ∧ a'.segments = x.2.segments.map (fun y => (y.2.segment_id,
                { y.2 with exposure :=
                    (pyRound (mult (x.2.asset_id, y.2.segment_id) * y.2.exposure) : ℚ) }))
            ∧ a'.total_exposure = segExpSum a'.segments
            ∧ a'.total_profit = segProfitSum a'.segments
            ∧ a'.total_risk_weighted_assets = segRwaSum a'.segments
            ∧ a'.average_risk_weight
                = (if 0 < a'.total_exposure
                  then a'.total_risk_weighted_assets / a'.total_exposure
                  else if rest = [] then first.2.risk_weight else 0))
      ∧ q.total_exposure = (q.assets.map fun x => x.2.total_exposure).sum
      ∧ q.total_profit = (q.assets.map fun x => x.2.total_profit).sum
      ∧ q.total_risk_weighted_assets
          = (q.assets.map fun x => x.2.total_risk_weighted_assets).sum
      ∧ q.average_risk_weight
          = (if 0 < q.total_exposure
            then q.total_risk_weighted_assets / q.total_exposure else 0) := by
  have hpres' : ∀ x ∈ p.assets, ∀ y ∈ x.2.segments,
      (assocFind nd (x.2.asset_id, y.2.segment_id)).isSome = true := by
    intro x hx y hy
    rw [hpres x hx y hy]
    rfl
  refine ⟨_, new_portfolio_ok iname p nd hkeys hpres', ?_, ?_, ?_, ?_, ?_⟩
  · intro x hx first rest hsegs
    have hnodupx := hsegids x hx
    rw [hsegs] at hnodupx
    obtain ⟨ha1, ha2, ha3, _, ha5, ha6, ha7, ha8, ha9⟩ :=
      buildNpAsset_spec nd x.2 first rest hnodupx
    refine ⟨buildNpAsset nd x.2 first.2 rest, ?_, ha2, ha3, ?_, ha6, ha7, ha8, ha9⟩
    · rw [mkPortfolio_assets]
      exact mem_npBuiltList nd p.assets x hx first rest hsegs
    · rw [ha5, hsegs]
      apply List.map_congr_left
      intro y hy
      have hfy := hpres x hx y (by rw [hsegs]; exact hy)
      rw [roundedSegment_of_find nd x.2.asset_id y.2 _ hfy]
  · rw [mkPortfolio_te, mkPortfolio_assets]
  · rw [mkPortfolio_tp, mkPortfolio_assets]
  · rw [mkPortfolio_trwa, mkPortfolio_assets]
  · exact mkPortfolio_avg _ _ _

/-- C4 witness: a one-asset, one-segment portfolio with multiplier 2. -/
theorem new_portfolio_rebuild_spec_witness :
    ∃ q, new_portfolio "t" (mkPortfolio "p" [("A1", csvSeedAsset "A1" c6seg)] [])
        [(("A1", "S1"), 2)] = .ok q
      ∧ (∀ x ∈ (mkPortfolio "p" [("A1", csvSeedAsset "A1" c6seg)] []).assets,
          ∀ (first : String × Segment) rest, x.2.segments = first :: rest →
          ∃ a', (x.2.asset_id, a') ∈ q.assets
            ∧ a'.min_rel_exposure = x.2.min_rel_exposure
            ∧ a'.max_rel_exposure = x.2.max_rel_exposure
            ∧ a'.segments = x.2.segments.map (fun y => (y.2.segment_id,
                { y.2 with exposure :=
                    (pyRound ((fun _ => (2:ℚ)) (x.2.asset_id, y.2.segment_id)
                      * y.2.exposure) : ℚ) }))
            ∧ a'.total_exposure = segExpSum a'.segments
            ∧ a'.total_profit = segProfitSum a'.segments
            ∧ a'.total_risk_weighted_assets = segRwaSum a'.segments
            ∧ a'.average_risk_weight
                = (if 0 < a'.total_exposure
                  then a'.total_risk_weighted_assets / a'.total_exposure
                  else if rest = [] then first.2.risk_weight else 0))
      ∧ q.total_exposure = (q.assets.map fun x => x.2.total_exposure).sum
      ∧ q.total_profit = (q.assets.map fun x => x.2.total_profit).sum
      ∧ q.total_risk_weighted_assets
          = (q.assets.map fun x => x.2.total_risk_weighted_assets).sum
      ∧ q.average_risk_weight
          = (if 0 < q.total_exposure
            then q.total_risk_weighted_assets / q.total_exposure else 0) :=
  new_portfolio_rebuild_spec "t" (mkPortfolio "p" [("A1", csvSeedAsset "A1" c6seg)] [])
    [(("A1", "S1"), 2)] (fun _ => 2)
    (by
      intro x hx y hy
      rw [mkPortfolio_assets] at hx
      rw [List.mem_singleton.mp hx] at hy ⊢
      rw [List.mem_singleton.mp hy]
      rfl)
    (by rw [mkPortfolio_assets]; simp)
    (by
      intro x hx
      rw [mkPortfolio_assets] at hx
      rw [List.mem_singleton.mp hx]
      simp [csvSeedAsset])

/-- C4 counterexample: with multiplier `0` on a one-segment asset of
risk weight `3/10`, `new_portfolio` succeeds and rebuilds the asset
with total exposure `0` but average risk weight `3/10` — the seed
`Asset(...)` call passes the segment's risk weight positionally as the
average — so the rebuilt aggregates do not all follow from the new
exposures: the specification's aggregate formula demands average risk
weight `0` at total exposure `0`. -/
theorem new_portfolio_zero_multiplier_breaks_average :
    new_portfolio "t" c4p c4nd
      = .ok (mkPortfolio ("t" ++ "_optimized_portfolio") [("A1", c4new)] [])
    ∧ c4new.total_exposure = 0
    ∧ c4new.average_risk_weight = 3/10
    ∧ ¬ AssetAggConsistent c4new := by
  have hte : c4new.total_exposure = 0 := by
    have h1 : c4new.total_exposure = ((pyRound ((0:ℚ) * (100:ℚ)) : ℤ) : ℚ) := rfl
    rw [h1, zero_mul, (show (0:ℚ) = ((0:ℤ):ℚ) by norm_num), pyRound_int]
  have havg : c4new.average_risk_weight = 3/10 := rfl
  refine ⟨?_, hte, havg, ?_⟩
  · have hnodup : (c4p.assets.map fun x => x.2.asset_id).Nodup := by
      rw [show c4p.assets = [("A1", c4orig)] from rfl]
      simp
    have hpres : ∀ x ∈ c4p.assets, ∀ y ∈ x.2.segments,
        (assocFind c4nd (x.2.asset_id, y.2.segment_id)).isSome = true := by
      intro x hx y hy
      rw [show c4p.assets = [("A1", c4orig)] from rfl] at hx
      rw [List.mem_singleton.mp hx] at hy ⊢
      rw [List.mem_singleton.mp hy]
      rfl
    exact new_portfolio_ok "t" c4p c4nd hnodup hpres
  · intro h
    have h5 := h.2.2.2.2 hte
    rw [havg] at h5
    norm_num at h5

/-- C8: if the allocation assigns multiplier `1` to every
(asset, segment) pair of the original portfolio and every original
exposure is an integer, the rebalanced portfolio has exactly the same
four portfolio-level aggregates as the original (the original's
aggregates being the ones the builder derives from its segments, and
its dict keys distinct, as for every portfolio the lifecycle
produces). -/
theorem zero_rebalancing_preserves_aggregates
    (iname : String) (p : Portfolio) (nd : Alloc)
    (hone : ∀ x ∈ p.assets, ∀ y ∈ x.2.segments,
      assocFind nd (x.2.asset_id, y.2.segment_id) = some 1)
    (hint : ∀ x ∈ p.assets, ∀ y ∈ x.2.segments, ∃ n : ℤ, y.2.exposure = (n : ℚ))
    (hkeys : (p.assets.map fun x => x.2.asset_id).Nodup)
    (hsegids : ∀ x ∈ p.assets, (x.2.segments.map fun y => y.2.segment_id).Nodup)
    (hacons : ∀ x ∈ p.assets, x.2.total_exposure = segExpSum x.2.segments
      ∧ x.2.total_profit = segProfitSum x.2.segments
      ∧ x.2.total_risk_weighted_assets = segRwaSum x.2.segments)
    (hpte : p.total_exposure = (p.assets.map fun x => x.2.total_exposure).sum)
    (hptp : p.total_profit = (p.assets.map fun x => x.2.total_profit).sum)
    (hptrwa : p.total_risk_weighted_assets
      = (p.assets.map fun x => x.2.total_risk_weighted_assets).sum)
    (hpavg : p.average_risk_weight
      = if 0 < p.total_exposure
        then p.total_risk_weighted_assets / p.total_exposure else 0) :
    ∃ q, new_portfolio iname p nd = .ok q
      ∧ q.total_exposure = p.total_exposure
      ∧ q.total_profit = p.total_profit
      ∧ q.total_risk_weighted_assets = p.total_risk_weighted_assets
      ∧ q.average_risk_weight = p.average_risk_weight := by
  have hpres' : ∀ x ∈ p.assets, ∀ y ∈ x.2.segments,
      (assocFind nd (x.2.asset_id, y.2.segment_id)).isSome = true := by
    intro x hx y hy
    rw [hone x hx y hy]
    rfl
  obtain ⟨hs1, hs2, hs3⟩ := npBuiltList_sums nd p.assets hone hint hsegids hacons
  refine ⟨_, new_portfolio_ok iname p nd hkeys hpres', ?_, ?_, ?_, ?_⟩
  · rw [mkPortfolio_te, hs1, ← hpte]
  · rw [mkPortfolio_tp, hs2, ← hptp]
  · rw [mkPortfolio_trwa, hs3, ← hptrwa]
  · rw [mkPortfolio_avg, mkPortfolio_te, mkPortfolio_trwa, hs1, hs3, ← hpte, ← hptrwa,
      hpavg]

/-- C8 witness: a one-asset, one-segment portfolio with integral
exposure and multiplier 1. -/
theorem zero_rebalancing_preserves_aggregates_witness :
    ∃ q, new_portfolio "t" (mkPortfolio "p" [("A1", csvSeedAsset "A1" c6seg)] [])
        [(("A1", "S1"), 1)] = .ok q
      ∧ q.total_exposure
          = (mkPortfolio "p" [("A1", csvSeedAsset "A1" c6seg)] []).total_exposure
      ∧ q.total_profit
          = (mkPortfolio "p" [("A1", csvSeedAsset "A1" c6seg)] []).total_profit
      ∧ q.total_risk_weighted_assets
          = (mkPortfolio "p" [("A1", csvSeedAsset "A1" c6seg)] []).total_risk_weighted_assets
      ∧ q.average_risk_weight
          = (mkPortfolio "p" [("A1", csvSeedAsset "A1" c6seg)] []).average_risk_weight :=
  zero_rebalancing_preserves_aggregates "t"
    (mkPortfolio "p" [("A1", csvSeedAsset "A1" c6seg)] []) [(("A1", "S1"), 1)]
    (by
      intro x hx y hy
      rw [mkPortfolio_assets] at hx
      rw [List.mem_singleton.mp hx] at hy ⊢
      rw [List.mem_singleton.mp hy]
      rfl)
    (by
      intro x hx y hy
      rw [mkPortfolio_assets] at hx
      rw [List.mem_singleton.mp hx] at hy
      rw [List.mem_singleton.mp hy]
      exact ⟨1, by norm_num [c6seg]⟩)
    (by rw [mkPortfolio_assets]; simp)
    (by
      intro x hx
      rw [mkPortfolio_assets] at hx
      rw [List.mem_singleton.mp hx]
      simp [csvSeedAsset])
    (by
      intro x hx
      rw [mkPortfolio_assets] at hx
      rw [List.mem_singleton.mp hx]
      refine ⟨?_, ?_, ?_⟩ <;> norm_num [csvSeedAsset, c6seg, segExpSum, segProfitSum, segRwaSum])
    (by rw [mkPortfolio_te, mkPortfolio_assets])
    (by rw [mkPortfolio_tp, mkPortfolio_assets])
    (by rw [mkPortfolio_trwa, mkPortfolio_assets])
    (mkPortfolio_avg _ _ _)

/-- C2 counterexample: on a segment table whose only row references an
asset absent from the (empty) asset table, `from_csv` raises nothing —
it returns a portfolio holding that asset with the dataclass default
bounds; and `new_portfolio` with a missing allocation entry raises
Python's `KeyError`, not the `ValidationError` the claim names. -/
theorem instance_builder_raises_no_validation_error :
    (from_csv "t" [c2row] [] []).assets = [("A1", csvSeedAsset "A1" (segOfRow c2row))]
    ∧ (csvSeedAsset "A1" (segOfRow c2row)).min_rel_exposure = 1/2
    ∧ (csvSeedAsset "A1" (segOfRow c2row)).max_rel_exposure = 3/2
    ∧ new_portfolio "t" (from_csv "t" [c2row] [] []) []
        = .error (.keyError ("A1", "S1"))
    ∧ PyError.keyError ("A1", "S1") ≠ PyError.validationError := by
  refine ⟨rfl, rfl, rfl, rfl, ?_⟩
  intro h
  cases h

/-- C2 (amended): the instance builder raises no `ValidationError` at
all.  `fromTables` performs no validation: a segment row referencing an
asset absent from the asset table still yields that asset, with the
dataclass default bounds (`0.5` / `1.5`) and zero profit standard
deviation, and the correlation matrix is never checked; `newPortfolio`
is the only fallible operation, and when the allocation is missing an
entry for a known (asset, segment) pair it fails with Python's
`KeyError` for an absent key — before any solve of a later phase, but
not with a `ValidationError`. -/
theorem instance_builder_error_behaviour :
    (∀ (iname : String) (segRows : List SegRow) (assetRows : List AssetRow)
        (corr : CorrMatrix) (r : SegRow), r ∈ segRows →
        (∀ ar ∈ assetRows, ar.asset ≠ r.asset) →
        ∃ a, assocFind (from_csv iname segRows assetRows corr).assets r.asset = some a
          ∧ a.min_rel_exposure = 1/2 ∧ a.max_rel_exposure = 3/2 ∧ a.profit_stdev = 0)
    ∧ (∀ (iname : String) (p : Portfolio) (nd : Alloc),
        (∃ x ∈ p.assets, ∃ y ∈ x.2.segments,
          assocFind nd (x.2.asset_id, y.2.segment_id) = none) →
        ∃ k, new_portfolio iname p nd = .error (.keyError k)
          ∧ assocFind nd k = none) := by
  constructor
  · intro iname segRows assetRows corr r hr hnone
    rw [from_csv_assets,
      overlay_find_unchanged assetRows (segRows.foldl fromCsvSegStep []) r.asset hnone]
    obtain ⟨h1, h2, _⟩ := csvInv_full segRows
    have hc := h2 r hr
    rw [assocContains] at hc
    cases hff : assocFind (segRows.foldl fromCsvSegStep []) r.asset with
    | none => rw [hff] at hc; exact absurd hc (by simp)
    | some a =>
      refine ⟨a, rfl, ?_⟩
      have hmem := assocFind_mem _ _ _ hff
      obtain ⟨first, rest, _, hb⟩ := h1 (r.asset, a) hmem
      have hfields := foldl_add_segment_fields rest (csvSeedAsset r.asset first)
      rw [show ((r.asset, a) : String × Asset).2 = a from rfl] at hb
      rw [hb, buildFromSegs]
      exact ⟨hfields.2.1, hfields.2.2.1, hfields.2.2.2⟩
  · intro iname p nd hmiss
    exact new_portfolio_missing_err iname p nd hmiss

/-- C2 witness: the amended statement at the concrete malformed inputs
of the counterexample. -/
theorem instance_builder_error_behaviour_witness :
    (∃ a, assocFind (from_csv "t" [c2row] [] []).assets c2row.asset = some a
      ∧ a.min_rel_exposure = 1/2 ∧ a.max_rel_exposure = 3/2 ∧ a.profit_stdev = 0)
    ∧ (∃ k, new_portfolio "t" (from_csv "t" [c2row] [] []) []
        = .error (.keyError k) ∧ assocFind ([] : Alloc) k = none) :=
  ⟨instance_builder_error_behaviour.1 "t" [c2row] [] [] c2row
      (List.mem_singleton.mpr rfl) (fun ar har => absurd har (List.not_mem_nil ar)),
    instance_builder_error_behaviour.2 "t" (from_csv "t" [c2row] [] []) []
      ⟨("A1", csvSeedAsset "A1" (segOfRow c2row)),
        by
          rw [show (from_csv "t" [c2row] [] []).assets
            = [("A1", csvSeedAsset "A1" (segOfRow c2row))] from rfl]
          exact List.mem_singleton.mpr rfl,
        ("S1", segOfRow c2row), List.mem_singleton.mpr rfl, rfl⟩⟩

/-- C3 counterexample: with a non-optimal, non-feasible status
(`infeasible`) on a one-segment portfolio, the pipeline does not
propagate the raw status to the caller: `optimize_portfolio` returns an
empty allocation (discarding the solver's candidate values), and the
run then dies inside `new_portfolio` with `KeyError` on the first
(asset, segment) pair — not with a `SolverStatusError` carrying the
status. -/
theorem solver_status_not_propagated :
    solve_optimization [c2row] [] [] .infeasible [(("A1", "S1"), 2)]
      = .error (.keyError ("A1", "S1"))
    ∧ extractInvestment .infeasible [(("A1", "S1"), 2)] = []
    ∧ (Except.error (PyError.keyError ("A1", "S1")) : Except PyError Portfolio)
        ≠ .error (.solverStatusError .infeasible) := by
  refine ⟨rfl, rfl, ?_⟩
  intro h
  cases Except.error.inj h

/-- C3 (amended): for every solve, only an optimal or feasible
status lets `optimize_portfolio` extract the solution — any other
status leaves the returned allocation empty — and then, whenever the
original portfolio owns at least one segment, `solve_optimization`
fails with a `KeyError` inside `new_portfolio`, so no rebalanced
portfolio is produced; the raw status is printed, not propagated. -/
theorem bad_status_aborts_without_portfolio
    (segRows : List SegRow) (assetRows : List AssetRow) (corr : CorrMatrix)
    (st : SolStatus) (sol : Alloc)
    (ho : st ≠ .optimal) (hf : st ≠ .feasible) :
    extractInvestment st sol = []
    ∧ ((∃ x ∈ (from_csv "" segRows assetRows corr).assets, x.2.segments ≠ []) →
        ∃ k, solve_optimization segRows assetRows corr st sol
          = .error (.keyError k)) := by
  have hext : extractInvestment st sol = [] := by
    rw [extractInvestment, if_neg]
    rintro (h | h)
    · exact ho h
    · exact hf h
  refine ⟨hext, ?_⟩
  rintro ⟨x, hx, hne⟩
  cases hsegs : x.2.segments with
  | nil => exact absurd hsegs hne
  | cons y ys =>
    have hmiss : ∃ x' ∈ (from_csv "" segRows assetRows corr).assets,
        ∃ y' ∈ x'.2.segments,
          assocFind ([] : Alloc) (x'.2.asset_id, y'.2.segment_id) = none :=
      ⟨x, hx, y, by rw [hsegs]; exact List.mem_cons_self y ys, rfl⟩
    obtain ⟨k, hk, _⟩ :=
      new_portfolio_missing_err "" (from_csv "" segRows assetRows corr) [] hmiss
    refine ⟨k, ?_⟩
    rw [solve_optimization, hext]
    exact hk

/-- C3 witness: the amended statement at the counterexample's inputs. -/
theorem bad_status_aborts_without_portfolio_witness :
    extractInvestment .infeasible [(("A1", "S1"), 2)] = []
    ∧ ((∃ x ∈ (from_csv "" [c2row] [] []).assets, x.2.segments ≠ []) →
        ∃ k, solve_optimization [c2row] [] [] .infeasible [(("A1", "S1"), 2)]
          = .error (.keyError k)) :=
  bad_status_aborts_without_portfolio [c2row] [] [] .infeasible [(("A1", "S1"), 2)]
    (by intro h; cases h) (by intro h; cases h)

/-- C5: `new_portfolio` never mutates the original portfolio's object
graph: every `Segment` and `Asset` cell that existed before the call —
in particular all segments, assets, aggregates and bounds of the
original `Portfolio` — holds exactly the same contents afterwards (only
fresh cells are allocated and written; the original `Portfolio` value
itself, including its correlation matrix, is only read). -/
theorem new_portfolio_never_mutates_original
    (iname : String) (nd : Alloc) (h : Store) (p : PortfolioObj) :
    (∀ i, i < h.segCells.length →
      ((newPortfolioStore iname nd h p).1).segCells.getD i segDefault
        = h.segCells.getD i segDefault)
    ∧ (∀ j, j < h.assetCells.length →
      ((newPortfolioStore iname nd h p).1).assetCells.getD j assetObjDefault
        = h.assetCells.getD j assetObjDefault) := by
  have hinv : SoInv h (p.assets.foldl (soAssetStep nd) (h, .ok [])) :=
    foldl_pres_inv (SoInv h) (soAssetStep nd)
      (fun acc e hi => soAssetStep_inv nd h acc e hi) p.assets (h, .ok [])
      ⟨Store.Grows.refl h,
        by intro l hl; cases hl; intro e he; exact absurd he (List.not_mem_nil e)⟩
  have hg : h.Grows ((newPortfolioStore iname nd h p).1) := by
    rw [newPortfolioStore]
    cases hrun : p.assets.foldl (soAssetStep nd) (h, Except.ok []) with
    | mk h1 res =>
      rw [hrun] at hinv
      cases res with
      | error e => exact hinv.1
      | ok na => exact hinv.1
  obtain ⟨⟨t, ht⟩, ⟨u, hu⟩⟩ := hg
  constructor
  · intro i hi
    rw [ht]
    exact List.getD_append _ _ _ _ hi
  · intro j hj
    rw [hu]
    exact List.getD_append _ _ _ _ hj

/-- C5 witness: the frame property at a concrete one-asset store. -/
theorem new_portfolio_never_mutates_original_witness :
    ((newPortfolioStore "t" [(("A1", "S1"), 1)] c5store c5pobj).1).segCells.getD 0
        segDefault
      = c5store.segCells.getD 0 segDefault
    ∧ ((newPortfolioStore "t" [(("A1", "S1"), 1)] c5store c5pobj).1).assetCells.getD 0
        assetObjDefault
      = c5store.assetCells.getD 0 assetObjDefault :=
  ⟨(new_portfolio_never_mutates_original "t" [(("A1", "S1"), 1)] c5store c5pobj).1 0
      (by simp [c5store]),
    (new_portfolio_never_mutates_original "t" [(("A1", "S1"), 1)] c5store c5pobj).2 0
      (by simp [c5store])⟩

/-- C1: in lexicographic mode (`consider_risk = true`,
`profit_weight < 0`) the solve protocol is exactly two sequential
solves: phase 1 maximizes `netProfit` (the objective at `alpha = 1`)
with the downside-risk equation absent and no netProfit lower bound;
before phase 2 the bound `netProfit ≥ (1 - 0.1) · netProfit*` is
installed (`netProfit*` being the value phase 1's solve returned for
`profit_objective_variable`), the downside-risk equation is appended,
and phase 2's objective at `alpha = 0` is `-D` (maximized, i.e. `D` is
minimized). -/
theorem lexicographic_two_phase_protocol
    (profit_weight : ℚ) (hpw : profit_weight < 0) (solver : ModelState → ℚ) :
    ∃ m1 m2, mainSolves true profit_weight solver = [m1, m2]
      ∧ m1.hasRiskEquation = false
      ∧ m1.profitObjectiveLo = none
      ∧ (∀ np d, objectiveOf m1 np d = np)
      ∧ m2.hasRiskEquation = true
      ∧ m2.profitObjectiveLo = some ((1 - 1/10) * solver m1)
      ∧ (∀ np d, objectiveOf m2 np d = -d) := by
  refine ⟨⟨1, false, .QCP, none⟩,
    ⟨0, true, .NLP, some (solver ⟨1, false, .QCP, none⟩ * (1 - 1/10))⟩,
    ?_, rfl, rfl, ?_, rfl, ?_, ?_⟩
  · simp [mainSolves, modelAtCreation, hpw]
  · intro np d; simp [objectiveOf]
  · simp [mul_comm]
  · intro np d; simp [objectiveOf]

/-- C1 witness: the protocol instantiated at `profit_weight = -1` with a
constant solver oracle. -/
theorem lexicographic_two_phase_protocol_witness :
    ∃ m1 m2, mainSolves true (-1) (fun _ => 5) = [m1, m2]
      ∧ m1.hasRiskEquation = false
      ∧ m1.profitObjectiveLo = none
      ∧ (∀ np d, objectiveOf m1 np d = np)
      ∧ m2.hasRiskEquation = true
      ∧ m2.profitObjectiveLo = some ((1 - 1/10) * (fun _ => (5 : ℚ)) m1)
      ∧ (∀ np d, objectiveOf m2 np d = -d) :=
  lexicographic_two_phase_protocol (-1) (by norm_num) (fun _ => 5)

/-- C7: in weighted mode (`consider_risk = true`, `profit_weight ≥ 0`)
there is exactly one solve, the downside-risk equation is included, and
the maximized objective is
`profit_weight · netProfit - (1 - profit_weight) · D`; at
`profit_weight = 1` it is `netProfit` alone and at `profit_weight = 0`
it is `-D`. -/
theorem weighted_single_solve
    (profit_weight : ℚ) (hpw : 0 ≤ profit_weight) (solver : ModelState → ℚ) :
    ∃ m, mainSolves true profit_weight solver = [m]
      ∧ m.hasRiskEquation = true
      ∧ (∀ np d, objectiveOf m np d = profit_weight * np - (1 - profit_weight) * d)
      ∧ (profit_weight = 1 → ∀ np d, objectiveOf m np d = np)
      ∧ (profit_weight = 0 → ∀ np d, objectiveOf m np d = -d) := by
  have hnot : ¬ profit_weight < 0 := not_lt.mpr hpw
  refine ⟨⟨profit_weight, true, .NLP, none⟩, ?_, rfl, ?_, ?_, ?_⟩
  · simp [mainSolves, modelAtCreation, hnot]
  · intro np d; simp [objectiveOf]
  · intro h1 np d; simp [objectiveOf, h1]
  · intro h0 np d; simp [objectiveOf, h0]

/-- C7 witness: weighted mode at `profit_weight = 1/2`. -/
theorem weighted_single_solve_witness :
    ∃ m, mainSolves true (1/2) (fun _ => 5) = [m]
      ∧ m.hasRiskEquation = true
      ∧ (∀ np d, objectiveOf m np d = 1/2 * np - (1 - 1/2) * d)
      ∧ ((1/2 : ℚ) = 1 → ∀ np d, objectiveOf m np d = np)
      ∧ ((1/2 : ℚ) = 0 → ∀ np d, objectiveOf m np d = -d) :=
  weighted_single_solve (1/2) (by norm_num) (fun _ => 5)

/-- Commuting a double sum over lists. -/
lemma double_sum_map_comm (l1 l2 : List String) (g : String → String → ℚ) :
    (l1.map fun i => (l2.map fun j => g i j).sum).sum
      = (l2.map fun j => (l1.map fun i => g i j).sum).sum := by
  induction l1 with
  | nil => simp
  | cons x xs ih =>
    simp only [List.map_cons, List.sum_cons, ih, List.sum_map_add]

/-- C9 counterexample: an explicitly non-symmetric correlation matrix on
two assets for which the transposed double sum nevertheless equals the
original one — the invariance does not require symmetry (the full double
sum over the same index set is invariant under transposition for every
matrix, symmetric or not). -/
theorem variance_swap_no_symmetry_needed :
    varianceSumSwapped ["A1", "A2"] (fun _ => 1)
        (fun i j => if i = "A1" ∧ j = "A2" then 1 else if i = j then 1 else 0)
        (fun _ => 1) 1
      = varianceSum ["A1", "A2"] (fun _ => 1)
        (fun i j => if i = "A1" ∧ j = "A2" then 1 else if i = j then 1 else 0)
        (fun _ => 1) 1
    ∧ ¬ CorrSymmOn ["A1", "A2"]
        (fun i j => if i = "A1" ∧ j = "A2" then 1 else if i = j then 1 else 0) := by
  have h2 : ("A2":String) ≠ "A1" := by simp
  constructor
  · norm_num [varianceSumSwapped, varianceSum, h2]
  · intro hsym
    have h := hsym "A1" (by simp) "A2" (by simp)
    simp [h2] at h

/-- C9 (amended): the variance double sum is invariant under swapping
the roles of the two asset indices in the summand, for every correlation
matrix — symmetry of the matrix is not required for the total (symmetry
makes the two summand families equal term by term, but the transposed
family always has the same total because it is a reindexing of the same
double sum). -/
theorem varianceSum_swap_invariant (ids : List String) (stdev : String → ℚ)
    (corr : String → String → ℚ) (E : String → ℚ) (T : ℚ) :
    varianceSumSwapped ids stdev corr E T = varianceSum ids stdev corr E T := by
  unfold varianceSumSwapped varianceSum
  exact double_sum_map_comm ids ids
    (fun i j => stdev j * stdev i * corr j i * E j * E i / (T * T))

end PortfolioRebalancing

